import Mathlib

/-!
Verification of the core of `mighty_struct.h`: relocatable, position-independent
data structures built from self-relative 32-bit offset pointers, a bump
allocator embedded in a block's trailing free space, and the container family
(String, List, Vector, Map) on top of them.

The embedding is byte-level where the C++ code manipulates raw memory
(`OffsetPtr`, `Allocator::Allocate`, `Struct::capacity/used_space/Init/Copy/
NewCopy`, `String`): memory is a function from integer addresses to byte
values, 32-bit fields are read and written little-endian, and `size_t` /
`uint32_t` arithmetic is taken modulo 2^64 / 2^32 exactly where the source
does it.  The linked list (`List<T>`), whose claims are about heap-shape
invariants, is embedded as a structured node heap whose operations are
translated statement-by-statement from `List::append`, `List::resize`,
`List::clear` and `Struct::CreateList`.
-/

namespace MightyStruct

/-- Byte-addressed memory: a value for every integer address.  Reads mask to a
byte, so arbitrary functions are valid memories. -/
def Mem : Type := Int → Nat

/-- Read one byte. -/
def read8 (m : Mem) (a : Int) : Nat := m a % 256

/-- Write one byte (stored masked to a byte). -/
def write8 (m : Mem) (a : Int) (v : Nat) : Mem :=
  fun x => if x = a then v % 256 else m x

/-- Little-endian unsigned 32-bit read, as the hardware the source targets. -/
def read32 (m : Mem) (a : Int) : Nat :=
  read8 m a + 256 * read8 m (a + 1) + 65536 * read8 m (a + 2) +
    16777216 * read8 m (a + 3)

/-- Little-endian 32-bit write. -/
def write32 (m : Mem) (a : Int) (v : Nat) : Mem :=
  write8 (write8 (write8 (write8 m a v) (a + 1) (v / 256)) (a + 2) (v / 65536))
    (a + 3) (v / 16777216)

/-- Two's-complement reading of a 32-bit field: the `int32_t Offset` type. -/
def readI32 (m : Mem) (a : Int) : Int :=
  let v := read32 m a
  if v < 2 ^ 31 then (v : Int) else (v : Int) - 2 ^ 32

/-- Truncation of an integer to signed 32 bits, as storing into `int32_t`. -/
def wrap32 (x : Int) : Int := (x + 2 ^ 31) % 2 ^ 32 - 2 ^ 31

/-- The unsigned bit pattern of a signed value, for storing via `write32`. -/
def encodeI32 (x : Int) : Nat := (x % 2 ^ 32).toNat

/-- `memset(p, 0, n)`. -/
def zeroRange (m : Mem) (a : Int) (n : Nat) : Mem :=
  fun x => if a ≤ x ∧ x < a + (n : Int) then 0 else m x

/-- `memcpy(dst, src, n)` for non-overlapping regions (the only way the source
uses it: the two blocks of `Struct::Copy` are distinct allocations). -/
def memcpy (m : Mem) (dst src : Int) (n : Nat) : Mem :=
  fun x => if dst ≤ x ∧ x < dst + (n : Int) then m (src + (x - dst)) else m x

/-- The bytes of a region, for stating bit-identical reads. -/
def readBytes (m : Mem) (a : Int) : Nat → List Nat
  | 0 => []
  | n + 1 => read8 m a :: readBytes m (a + 1) n

/-- The characters of a NUL-terminated string at `a`, up to `fuel` bytes:
what `strlen` / `strcmp` / `c_str` observe. -/
def cStrBytes (m : Mem) (a : Int) : Nat → List Nat
  | 0 => []
  | fuel + 1 => if read8 m a = 0 then [] else read8 m a :: cStrBytes m (a + 1) fuel

/-- `strcmp(a, b) == 0`, with enough fuel to pass both NUL terminators. -/
def strcmpEq (m : Mem) (a b : Int) : Nat → Bool
  | 0 => true
  | fuel + 1 =>
    if read8 m a ≠ read8 m b then false
    else if read8 m a = 0 then true
    else strcmpEq m (a + 1) (b + 1) fuel

/-- `B'` (in `m'` at base `b'`) is a byte-for-byte copy of the first `n` bytes
of `B` (in `m` at base `b`). -/
def Agrees (m m' : Mem) (b b' : Int) (n : Nat) : Prop :=
  ∀ i : Nat, i < n → m' (b' + (i : Int)) = m (b + (i : Int))

namespace OffsetPtr

/-- `OffsetPtr<T>::get`: null when the stored offset is 0, otherwise the
address of the offset slot plus the stored (signed) offset. -/
def get (m : Mem) (slot : Int) : Option Int :=
  let o := readI32 m slot
  if o = 0 then none else some (slot + o)

/-- `OffsetPtr<T>::to_offset`: 0 for null, otherwise the pointer minus the
address of the slot, truncated to the `int32_t Offset` type. -/
def toOffset (slot : Int) (p : Option Int) : Int :=
  match p with
  | none => 0
  | some a => wrap32 (a - slot)

/-- `operator= (const T *ptr)`: store `to_offset(ptr)` into the slot. -/
def store (m : Mem) (slot : Int) (p : Option Int) : Mem :=
  write32 m slot (encodeI32 (toOffset slot p))

/-- `operator= (const OffsetPtr<T> &ptr)`: read the source slot, then store
the resulting pointer — rebasing, not copying the raw offset. -/
def assign (m : Mem) (dstSlot srcSlot : Int) : Mem :=
  store m dstSlot (get m srcSlot)

end OffsetPtr

/-- `sizeof(Allocator)`: two `uint32_t` fields. -/
def sizeofAllocator : Nat := 8

namespace Allocator

/-- The `capacity` field of the allocator headed at `abase`. -/
def capacity (m : Mem) (abase : Int) : Nat := read32 m abase

/-- The `used_space` field of the allocator headed at `abase`. -/
def usedSpace (m : Mem) (abase : Int) : Nat := read32 m (abase + 4)

/-- `Allocator::Allocator(size_t n)`: `capacity = n` (truncated to `Size`),
`used_space = sizeof(Allocator)`.  Placement-`new`ed at `abase`. -/
def construct (m : Mem) (abase : Int) (n : Nat) : Mem :=
  write32 (write32 m abase n) (abase + 4) sizeofAllocator

/-- `Allocator::Allocate<T>(count)` at the allocator headed at `abase`, with
`sizeT = sizeof(T)`.  Returns the raw pointer (or none) and the new memory.
`available_space` and `required_space` are `size_t` (mod 2^64) as in the
source; `used_space += required_space` stores into a `Size` (mod 2^32, taken
by `write32`). -/
def Allocate (m : Mem) (abase : Int) (sizeT count : Nat) :
    Option Int × Mem :=
  if count = 0 then (none, m)
  else
    let cap := capacity m abase
    let used := usedSpace m abase
    let available := (2 ^ 64 + cap - used) % 2 ^ 64
    let required := sizeT * count % 2 ^ 64
    if required > available then (none, m)
    else
      let ptr := abase + (used : Int)
      let m1 := zeroRange m ptr required
      let m2 := write32 m1 (abase + 4) (used + required)
      (some ptr, m2)

end Allocator

namespace Struct

/-- The `struct_size` field of the block headed at `base`. -/
def structSize (m : Mem) (base : Int) : Nat := read32 m base

/-- The `allocator` OffsetPtr field, stored at `base + 4`. -/
def allocatorPtr (m : Mem) (base : Int) : Option Int :=
  OffsetPtr.get m (base + 4)

/-- `Struct::capacity()`: `struct_size + (allocator ? allocator->capacity : 0)`. -/
def capacity (m : Mem) (base : Int) : Nat :=
  structSize m base +
    match allocatorPtr m base with
    | none => 0
    | some ab => Allocator.capacity m ab

/-- `Struct::used_space()`: `struct_size + (allocator ? allocator->used_space : 0)`. -/
def usedSpace (m : Mem) (base : Int) : Nat :=
  structSize m base +
    match allocatorPtr m base with
    | none => 0
    | some ab => Allocator.usedSpace m ab

/-- `Struct::Init<S>(free_space)` with `sizeS = sizeof(S)`: record the struct
size; when `free_space` is nonzero, placement-new an `Allocator(free_space)`
at `base + sizeS` and point the `allocator` field at it, else null it. -/
def Init (m : Mem) (base : Int) (sizeS free : Nat) : Mem :=
  let m1 := write32 m base sizeS
  if free ≠ 0 then
    let addr := base + (sizeS : Int)
    let m2 := Allocator.construct m1 addr free
    OffsetPtr.store m2 (base + 4) (some addr)
  else
    OffsetPtr.store m1 (base + 4) none

/-- `Struct::InplaceNew<S>(buffer, capacity)`: default-construct `S` (its
`OffsetPtr` members zero their offsets; `struct_size` is then overwritten by
`Init`), then `Init<S>(capacity - sizeof(S))` — a `size_t` subtraction. -/
def InplaceNew (m : Mem) (base : Int) (sizeS cap : Nat) : Mem :=
  Init m base sizeS ((2 ^ 64 + cap - sizeS) % 2 ^ 64)

/-- `Struct::Copy(const Struct *src)`: reject null src and insufficient
capacity; otherwise memcpy `src->used_space()` bytes over this block and
re-derive the allocator's capacity from the original capacity (a `size_t`
subtraction stored into a `Size` field). -/
def Copy (m : Mem) (base : Int) (src : Option Int) : Bool × Mem :=
  match src with
  | none => (false, m)
  | some s =>
    if capacity m base < usedSpace m s then (false, m)
    else
      let originalCapacity := capacity m base
      let m1 := memcpy m base s (usedSpace m s)
      match allocatorPtr m1 base with
      | none => (true, m1)
      | some ab =>
        (true,
          write32 m1 ab
            ((2 ^ 64 + originalCapacity - structSize m1 base) % 2 ^ 64))

/-- `Struct::NewCopy<S>(src)` with the fresh heap buffer placed at `newBase`:
null propagates; otherwise `New<S>(src->used_space())` (i.e. `InplaceNew` on
the fresh buffer) followed by `Copy(src)`, whose result is discarded. -/
def NewCopy (m : Mem) (newBase : Int) (sizeS : Nat) (src : Option Int) :
    Option Int × Mem :=
  match src with
  | none => (none, m)
  | some s =>
    let m1 := InplaceNew m newBase sizeS (usedSpace m s)
    (some newBase, (Copy m1 newBase (some s)).2)

end Struct

namespace String

/-- `String::operator== (const char *s)` where the String's `data` slot is at
`slot` and `s` is either a null pointer or the address of a C string:
`data.get() == s || (data && s && !strcmp(data.get(), s))`. -/
def eqC (m : Mem) (slot : Int) (s : Option Int) (fuel : Nat) : Bool :=
  match OffsetPtr.get m slot, s with
  | none, none => true
  | none, some _ => false
  | some _, none => false
  | some a, some b => a == b || strcmpEq m a b fuel

/-- `String::c_str()`: the empty literal when `data` is null, else the bytes of
the NUL-terminated string it points at. -/
def cStr (m : Mem) (slot : Int) (fuel : Nat) : List Nat :=
  match OffsetPtr.get m slot with
  | none => []
  | some a => cStrBytes m a fuel

/-- `String::length()`: `data ? strlen(c_str()) : 0`. -/
def length (m : Mem) (slot : Int) (fuel : Nat) : Nat :=
  match OffsetPtr.get m slot with
  | none => 0
  | some a => (cStrBytes m a fuel).length

/-- `String::empty()`: `!data || !*data.get()`. -/
def empty (m : Mem) (slot : Int) : Bool :=
  match OffsetPtr.get m slot with
  | none => true
  | some a => read8 m a == 0

end String

/-- An all-zero memory, the starting point of the concrete test blocks. -/
def memZero : Mem := fun _ => 0

/-!
Structured model of `List<T>` for the heap-shape claims.  A node is the
`(size_, value, next)` triple; `value` holds an abstract token standing for
the non-null `T*` (only null-ness and identity matter to the invariant), and
`next` holds a node id — an index into the block's node heap.  The state
carries the allocator's remaining free bytes, so allocation failure happens
exactly when the source's `required_space > available_space` check fires;
`sizeT`/`sizeNode` are `sizeof(T)` and `sizeof(List<T>)`.
-/

structure LNode where
  size_ : Nat
  value : Option Nat
  next : Option Nat
deriving DecidableEq

structure LState where
  free : Nat
  nodes : List LNode
  fresh : Nat
deriving DecidableEq

/-- `content_type`: the transient `(size, value, next)` descriptor. -/
structure LContent where
  size : Nat
  value : Option Nat
  next : Option Nat
deriving DecidableEq

namespace LList

/-- Dereference a node id (reads off the end are irrelevant: the source never
performs them on the states our theorems quantify over). -/
def getN (s : LState) (i : Nat) : LNode := s.nodes.getD i ⟨0, none, none⟩

/-- Overwrite one node. -/
def setN (s : LState) (i : Nat) (nd : LNode) : LState :=
  { s with nodes := s.nodes.set i nd }

/-- `s->Allocate<T>()` for the element payload: consume `sizeT` bytes and
hand out a fresh non-null token, or fail leaving the state unchanged. -/
def allocT (sizeT : Nat) (s : LState) : Option Nat × LState :=
  if sizeT > s.free then (none, s)
  else (some s.fresh,
    { s with free := s.free - sizeT, fresh := s.fresh + 1 })

/-- `s->Allocate<List<T>>()`: consume `sizeNode` bytes and append a zeroed
node (`List()` : `size_ = 0`, null `value` and `next`), or fail unchanged. -/
def allocNode (sizeNode : Nat) (s : LState) : Option Nat × LState :=
  if sizeNode > s.free then (none, s)
  else (some s.nodes.length,
    { s with free := s.free - sizeNode, nodes := s.nodes ++ [⟨0, none, none⟩] })

/-- `List<T>::append(Struct *s, const content_type &c)` on the node `i`,
translated line by line; `fuel` bounds the recursion along the `next` chain
(the C++ recursion terminates because well-formed chains are finite). -/
def append (sizeNode : Nat) : Nat → LState → Nat → LContent → Bool × LState
  | 0, st, _, _ => (false, st)
  | fuel + 1, st, i, c =>
    let nd := getN st i
    if nd.size_ = 0 then
      (true, setN st i ⟨c.size, c.value, c.next⟩)
    else
      match nd.next with
      | some nx =>
        let r := append sizeNode fuel st nx c
        if r.1 then
          (true, setN r.2 i
            { getN r.2 i with size_ := (getN r.2 nx).size_ + 1 })
        else (false, r.2)
      | none =>
        match allocNode sizeNode st with
        | (none, st1) => (false, st1)
        | (some nx, st1) =>
          let st2 := setN st1 i { nd with next := some nx }
          let r := append sizeNode fuel st2 nx c
          if r.1 then
            (true, setN r.2 i
              { getN r.2 i with size_ := (getN r.2 nx).size_ + 1 })
          else (false, r.2)

/-- `List<T>::append(Struct *s, V *v)`: null `v` is rejected, otherwise a
one-element descriptor is appended. -/
def appendValue (sizeNode fuel : Nat) (st : LState) (i : Nat)
    (v : Option Nat) : Bool × LState :=
  match v with
  | none => (false, st)
  | some tv => append sizeNode fuel st i ⟨1, some tv, none⟩

/-- `Struct::CreateList<T>(size)`: allocate one `T` and (for `size > 1`) one
`List<T>` node, recur for the tail, returning the descriptor; on any
sub-allocation failure the descriptor keeps `size = 0` (but whatever fields
were already filled in stay filled in, exactly as in the source). -/
def createList (sizeT sizeNode : Nat) : Nat → LState → LContent × LState
  | 0, st => (⟨0, none, none⟩, st)
  | n + 1, st =>
    match allocT sizeT st with
    | (none, st1) => (⟨0, none, none⟩, st1)
    | (some v, st1) =>
      if n = 0 then (⟨1, some v, none⟩, st1)
      else
        match allocNode sizeNode st1 with
        | (none, st2) => (⟨0, some v, none⟩, st2)
        | (some nx, st2) =>
          let r := createList sizeT sizeNode n st2
          let st4 := setN r.2 nx ⟨r.1.size, r.1.value, r.1.next⟩
          if (getN st4 nx).size_ = 0 then (⟨0, some v, some nx⟩, st4)
          else (⟨n + 1, some v, some nx⟩, st4)

/-- `List<T>::clear()`: `size_ = 0; value = NULL; next = NULL;`. -/
def clear (st : LState) (i : Nat) : LState := setN st i ⟨0, none, none⟩

/-- `List<T>::resize(Struct *s, size_t new_size)`, translated line by line.
A shrink to `new_size ≥ 2` dereferences `next`; on a malformed node with null
`next` that is undefined behaviour in the source, modelled as failure. -/
def resize (sizeT sizeNode : Nat) : Nat → LState → Nat → Nat → Bool × LState
  | 0, st, _, _ => (false, st)
  | fuel + 1, st, i, newSize =>
    let nd := getN st i
    if newSize = nd.size_ then (true, st)
    else if newSize > nd.size_ then
      let r := createList sizeT sizeNode (newSize - nd.size_) st
      append sizeNode (fuel + 1) r.2 i r.1
    else if newSize = 0 then (true, clear st i)
    else if newSize = 1 then
      (true, setN st i { nd with size_ := 1, next := none })
    else
      match nd.next with
      | none => (false, st)
      | some nx =>
        let r := resize sizeT sizeNode fuel st nx (newSize - 1)
        if r.1 then
          (true, setN r.2 i { getN r.2 i with size_ := newSize })
        else (false, r.2)

/-- The nodes on the `next` chain starting at `i`. -/
inductive InChain (s : LState) : Nat → Nat → Prop
  | here (i : Nat) : InChain s i i
  | there (i j k : Nat) : (getN s i).next = some j → InChain s j k →
      InChain s i k

/-- The claim's invariant on the chain rooted at `i`: every reachable node
has `size == 0 → value == null ∧ next == null`, and `size > 0 → value ≠ null
∧ size = 1 + (next ? next.size : 0)`; the inductive reading also makes the
chain finite and in-bounds. -/
inductive WfNode (s : LState) : Nat → Prop
  | nil (i : Nat) : i < s.nodes.length → (getN s i).size_ = 0 →
      (getN s i).value = none → (getN s i).next = none → WfNode s i
  | last (i : Nat) : i < s.nodes.length → (getN s i).size_ = 1 →
      (getN s i).value ≠ none → (getN s i).next = none → WfNode s i
  | cons (i j : Nat) : i < s.nodes.length → (getN s i).next = some j →
      (getN s i).value ≠ none → (getN s i).size_ = (getN s j).size_ + 1 →
      WfNode s j → WfNode s i

/-- A descriptor that is safe to append at `i`: either empty-and-null, a
single element, or headed by a well-formed chain disjoint from `i`'s chain. -/
def ContentSep (s : LState) (i : Nat) (c : LContent) : Prop :=
  (c.size = 0 ∧ c.value = none ∧ c.next = none) ∨
  (0 < c.size ∧ c.value ≠ none ∧
    ((c.next = none ∧ c.size = 1) ∨
      (∃ j, c.next = some j ∧ (getN s j).size_ + 1 = c.size ∧ WfNode s j ∧
        (∀ k, InChain s j k → ¬ InChain s i k))))

/-- The operations of the claim: `append(s, v)`, `resize(s, n)`, `clear()`. -/
inductive LOp where
  | append (v : Option Nat)
  | resize (n : Nat)
  | clear
deriving DecidableEq

/-- One operation on the list rooted at `root`, with fuel ample for
well-formed chains (the C++ recursion needs `size_` levels). -/
def stepOp (sizeT sizeNode : Nat) (st : LState) (root : Nat) :
    LOp → Bool × LState
  | .append v =>
    appendValue sizeNode ((getN st root).size_ + 2) st root v
  | .resize n =>
    resize sizeT sizeNode ((getN st root).size_ + n + 2) st root n
  | .clear => (true, clear st root)

/-- Run a sequence of operations. -/
def runOps (sizeT sizeNode : Nat) (root : Nat) (st : LState) :
    List LOp → LState
  | [] => st
  | op :: rest =>
    runOps sizeT sizeNode root (stepOp sizeT sizeNode st root op).2 rest

/-- No *partial* inner allocation failure: a growing resize either gets a
fully successful `CreateList` descriptor or a fully failed (all-null) one.
Appends and shrinks are always clean. -/
def CleanStep (sizeT sizeNode : Nat) (st : LState) (root : Nat) :
    LOp → Prop
  | .append _ => True
  | .clear => True
  | .resize n =>
    (getN st root).size_ < n →
      ((createList sizeT sizeNode (n - (getN st root).size_) st).1.size =
          n - (getN st root).size_ ∨
        (createList sizeT sizeNode (n - (getN st root).size_) st).1 =
          ⟨0, none, none⟩)

/-- Cleanliness of a whole sequence, step by step along the run. -/
def CleanOps (sizeT sizeNode : Nat) (root : Nat) (st : LState) :
    List LOp → Prop
  | [] => True
  | op :: rest =>
    CleanStep sizeT sizeNode st root op ∧
      CleanOps sizeT sizeNode root (stepOp sizeT sizeNode st root op).2 rest

end LList

namespace Map

/-- `Map::find(key)` as the index from `begin()`: advance while the element's
`first` does not equal the key; `size()` plays the part of `end()`. -/
def find {K V : Type} (beq : K → K → Bool) (key : K) :
    List (K × V) → Nat
  | [] => 0
  | p :: rest => if beq p.1 key then 0 else find beq key rest + 1

/-- `Map::operator[]`: `find`, throw `out_of_range` at `end()`, otherwise
return `*it` — the element `find` stopped at. -/
def subscript {K V : Type} (beq : K → K → Bool) (pairs : List (K × V))
    (key : K) : Except Unit (K × V) :=
  match pairs[find beq key pairs]? with
  | none => Except.error ()
  | some p => Except.ok p

end Map

-- basic read/write lemmas

theorem read8_write8_same (m : Mem) (a : Int) (v : Nat) :
    read8 (write8 m a v) a = v % 256 := by
  simp [read8, write8, Nat.mod_mod_of_dvd]

theorem read8_write8_ne (m : Mem) (a b : Int) (v : Nat) (h : b ≠ a) :
    read8 (write8 m a v) b = read8 m b := by
  simp [read8, write8, h]

theorem read32_write32_same (m : Mem) (a : Int) (v : Nat) :
    read32 (write32 m a v) a = v % 2 ^ 32 := by
  have h1 : (a : Int) ≠ a + 1 := by omega
  have h2 : (a : Int) ≠ a + 2 := by omega
  have h3 : (a : Int) ≠ a + 3 := by omega
  have h12 : (a + 1 : Int) ≠ a + 2 := by omega
  have h13 : (a + 1 : Int) ≠ a + 3 := by omega
  have h23 : (a + 2 : Int) ≠ a + 3 := by omega
  simp only [read32, write32]
  rw [read8_write8_ne _ _ _ _ h3, read8_write8_ne _ _ _ _ h2,
    read8_write8_ne _ _ _ _ h1, read8_write8_same,
    read8_write8_ne _ _ _ _ h13, read8_write8_ne _ _ _ _ h12,
    read8_write8_same,
    read8_write8_ne _ _ _ _ h23, read8_write8_same,
    read8_write8_same]
  omega

theorem read8_write32_outside (m : Mem) (a b : Int) (v : Nat)
    (h : b < a ∨ a + 4 ≤ b) : read8 (write32 m a v) b = read8 m b := by
  have h0 : b ≠ a := by omega
  have h1 : b ≠ a + 1 := by omega
  have h2 : b ≠ a + 2 := by omega
  have h3 : b ≠ a + 3 := by omega
  simp only [write32]
  rw [read8_write8_ne _ _ _ _ h3, read8_write8_ne _ _ _ _ h2,
    read8_write8_ne _ _ _ _ h1, read8_write8_ne _ _ _ _ h0]

theorem read32_write32_disjoint (m : Mem) (a b : Int) (v : Nat)
    (h : b + 4 ≤ a ∨ a + 4 ≤ b) : read32 (write32 m a v) b = read32 m b := by
  simp only [read32]
  rw [read8_write32_outside _ _ _ _ (by omega), read8_write32_outside _ _ _ _ (by omega),
    read8_write32_outside _ _ _ _ (by omega), read8_write32_outside _ _ _ _ (by omega)]

theorem read32_lt (m : Mem) (a : Int) : read32 m a < 2 ^ 32 := by
  have h0 : read8 m a < 256 := Nat.mod_lt _ (by norm_num)
  have h1 : read8 m (a + 1) < 256 := Nat.mod_lt _ (by norm_num)
  have h2 : read8 m (a + 2) < 256 := Nat.mod_lt _ (by norm_num)
  have h3 : read8 m (a + 3) < 256 := Nat.mod_lt _ (by norm_num)
  simp only [read32]
  omega

theorem wrap32_eq_of_range (x : Int) (h1 : -(2 ^ 31) ≤ x) (h2 : x < 2 ^ 31) :
    wrap32 x = x := by
  unfold wrap32
  omega

theorem readI32_write32_encode (m : Mem) (a : Int) (x : Int) :
    readI32 (write32 m a (encodeI32 x)) a = wrap32 x := by
  have he : encodeI32 x % 2 ^ 32 = encodeI32 x := by
    unfold encodeI32
    have : x % 2 ^ 32 < 2 ^ 32 := Int.emod_lt_of_pos x (by norm_num)
    have h0 : 0 ≤ x % 2 ^ 32 := Int.emod_nonneg x (by norm_num)
    omega
  unfold readI32
  rw [read32_write32_same, he]
  unfold encodeI32 wrap32
  have h0 : 0 ≤ x % 2 ^ 32 := Int.emod_nonneg x (by norm_num)
  have h1 : x % 2 ^ 32 < 2 ^ 32 := Int.emod_lt_of_pos x (by norm_num)
  have hcast : ((x % 2 ^ 32).toNat : Int) = x % 2 ^ 32 := Int.toNat_of_nonneg h0
  by_cases hlt : (x % 2 ^ 32).toNat < 2 ^ 31
  · simp only [hlt, if_pos, hcast]
    omega
  · simp only [hlt, if_neg, hcast, if_false]
    omega

theorem read8_memcpy_inside (m : Mem) (dst src a : Int) (n : Nat)
    (h : dst ≤ a ∧ a < dst + (n : Int)) :
    read8 (memcpy m dst src n) a = read8 m (src + (a - dst)) := by
  simp [read8, memcpy, h]

theorem read8_memcpy_outside (m : Mem) (dst src a : Int) (n : Nat)
    (h : a < dst ∨ dst + (n : Int) ≤ a) :
    read8 (memcpy m dst src n) a = read8 m a := by
  have : ¬(dst ≤ a ∧ a < dst + (n : Int)) := by omega
  simp [read8, memcpy, this]

theorem read32_memcpy_inside (m : Mem) (dst src a : Int) (n : Nat)
    (h : dst ≤ a ∧ a + 4 ≤ dst + (n : Int)) :
    read32 (memcpy m dst src n) a = read32 m (src + (a - dst)) := by
  simp only [read32]
  rw [read8_memcpy_inside _ _ _ _ _ (by omega),
    read8_memcpy_inside _ _ _ _ _ (by omega),
    read8_memcpy_inside _ _ _ _ _ (by omega),
    read8_memcpy_inside _ _ _ _ _ (by omega)]
  have e1 : src + (a + 1 - dst) = src + (a - dst) + 1 := by omega
  have e2 : src + (a + 2 - dst) = src + (a - dst) + 2 := by omega
  have e3 : src + (a + 3 - dst) = src + (a - dst) + 3 := by omega
  rw [e1, e2, e3]

theorem read32_memcpy_outside (m : Mem) (dst src a : Int) (n : Nat)
    (h : a + 4 ≤ dst ∨ dst + (n : Int) ≤ a) :
    read32 (memcpy m dst src n) a = read32 m a := by
  simp only [read32]
  rw [read8_memcpy_outside _ _ _ _ _ (by omega),
    read8_memcpy_outside _ _ _ _ _ (by omega),
    read8_memcpy_outside _ _ _ _ _ (by omega),
    read8_memcpy_outside _ _ _ _ _ (by omega)]

theorem read8_zeroRange_inside (m : Mem) (a x : Int) (n : Nat)
    (h : a ≤ x ∧ x < a + (n : Int)) : read8 (zeroRange m a n) x = 0 := by
  simp [read8, zeroRange, h]

theorem read8_zeroRange_outside (m : Mem) (a x : Int) (n : Nat)
    (h : x < a ∨ a + (n : Int) ≤ x) : read8 (zeroRange m a n) x = read8 m x := by
  have : ¬(a ≤ x ∧ x < a + (n : Int)) := by omega
  simp [read8, zeroRange, this]

theorem read32_zeroRange_outside (m : Mem) (a x : Int) (n : Nat)
    (h : x + 4 ≤ a ∨ a + (n : Int) ≤ x) :
    read32 (zeroRange m a n) x = read32 m x := by
  simp only [read32]
  rw [read8_zeroRange_outside _ _ _ _ (by omega),
    read8_zeroRange_outside _ _ _ _ (by omega),
    read8_zeroRange_outside _ _ _ _ (by omega),
    read8_zeroRange_outside _ _ _ _ (by omega)]

-- reads through a byte-for-byte copy (`Agrees`)

theorem read8_agrees (m m' : Mem) (b b' : Int) (n k : Nat)
    (hag : Agrees m m' b b' n) (hk : k < n) :
    read8 m' (b' + (k : Int)) = read8 m (b + (k : Int)) := by
  simp only [read8]
  rw [hag k hk]

theorem read32_agrees (m m' : Mem) (b b' : Int) (n k : Nat)
    (hag : Agrees m m' b b' n) (hk : k + 4 ≤ n) :
    read32 m' (b' + (k : Int)) = read32 m (b + (k : Int)) := by
  simp only [read32]
  have e1 : ∀ c : Int, c + (k : Int) + 1 = c + ((k + 1 : Nat) : Int) := by
    intro c; push_cast; omega
  have e2 : ∀ c : Int, c + (k : Int) + 2 = c + ((k + 2 : Nat) : Int) := by
    intro c; push_cast; omega
  have e3 : ∀ c : Int, c + (k : Int) + 3 = c + ((k + 3 : Nat) : Int) := by
    intro c; push_cast; omega
  rw [e1 b', e1 b, e2 b', e2 b, e3 b', e3 b,
    read8_agrees m m' b b' n k hag (by omega),
    read8_agrees m m' b b' n (k + 1) hag (by omega),
    read8_agrees m m' b b' n (k + 2) hag (by omega),
    read8_agrees m m' b b' n (k + 3) hag (by omega)]

theorem readI32_agrees (m m' : Mem) (b b' : Int) (n k : Nat)
    (hag : Agrees m m' b b' n) (hk : k + 4 ≤ n) :
    readI32 m' (b' + (k : Int)) = readI32 m (b + (k : Int)) := by
  simp only [readI32]
  rw [read32_agrees m m' b b' n k hag hk]

theorem cStrBytes_congr (m m' : Mem) (a a' : Int) (fuel : Nat)
    (h : ∀ i : Nat, i < fuel → read8 m' (a' + (i : Int)) = read8 m (a + (i : Int))) :
    cStrBytes m' a' fuel = cStrBytes m a fuel := by
  induction fuel generalizing a a' with
  | zero => rfl
  | succ f ih =>
    have h0 : read8 m' a' = read8 m a := by
      have := h 0 (by omega)
      simpa using this
    simp only [cStrBytes, h0]
    by_cases hz : read8 m a = 0
    · simp [hz]
    · simp only [hz, if_false]
      congr 1
      apply ih
      intro i hi
      have := h (i + 1) (by omega)
      have e : ∀ c : Int, c + ((i + 1 : Nat) : Int) = c + 1 + (i : Int) := by
        intro c; push_cast; omega
      rw [e a', e a] at this
      exact this

theorem readBytes_congr (m m' : Mem) (a a' : Int) (len : Nat)
    (h : ∀ i : Nat, i < len → read8 m' (a' + (i : Int)) = read8 m (a + (i : Int))) :
    readBytes m' a' len = readBytes m a len := by
  induction len generalizing a a' with
  | zero => rfl
  | succ f ih =>
    have h0 : read8 m' a' = read8 m a := by
      have := h 0 (by omega)
      simpa using this
    simp only [readBytes, h0]
    congr 1
    apply ih
    intro i hi
    have := h (i + 1) (by omega)
    have e : ∀ c : Int, c + ((i + 1 : Nat) : Int) = c + 1 + (i : Int) := by
      intro c; push_cast; omega
    rw [e a', e a] at this
    exact this

theorem wrap32_range (x : Int) : -(2 ^ 31) ≤ wrap32 x ∧ wrap32 x < 2 ^ 31 := by
  unfold wrap32
  have h0 : 0 ≤ (x + 2 ^ 31) % 2 ^ 32 := Int.emod_nonneg _ (by norm_num)
  have h1 : (x + 2 ^ 31) % 2 ^ 32 < 2 ^ 32 := Int.emod_lt_of_pos _ (by norm_num)
  omega

theorem readI32_store (m : Mem) (slot : Int) (p : Option Int) :
    readI32 (OffsetPtr.store m slot p) slot = OffsetPtr.toOffset slot p := by
  unfold OffsetPtr.store
  rw [readI32_write32_encode]
  match p with
  | none => simp [OffsetPtr.toOffset, wrap32]
  | some a =>
    simp only [OffsetPtr.toOffset]
    exact wrap32_eq_of_range _ (wrap32_range _).1 (wrap32_range _).2

theorem offsetPtr_get_store (m : Mem) (slot : Int) (p : Option Int)
    (hfit : ∀ a, p = some a →
      -(2 ^ 31) ≤ a - slot ∧ a - slot < 2 ^ 31 ∧ a ≠ slot) :
    OffsetPtr.get (OffsetPtr.store m slot p) slot = p := by
  unfold OffsetPtr.get
  rw [readI32_store]
  match p with
  | none => simp [OffsetPtr.toOffset]
  | some a =>
    obtain ⟨hlo, hhi, hne⟩ := hfit a rfl
    simp only [OffsetPtr.toOffset]
    rw [wrap32_eq_of_range _ hlo hhi]
    have hnz : a - slot ≠ 0 := by omega
    simp only [hnz, if_false]
    congr 1
    omega

/-- C3 (amended): storing a pointer `p` that is null, or whose distance from
the slot fits in the signed 32-bit offset AND is nonzero (i.e. `p` is not the
slot's own address), then reading, yields exactly `p`; null is stored as raw
offset 0 and reads back as null; for a non-null target `t`,
`address(t) = address(slot) + raw stored offset`; and assignment from another
OffsetPtr preserves the target (rebasing the raw offset to the new slot). -/
theorem offsetPtr_roundtrip_spec (m : Mem) (slot dstSlot : Int) (p : Option Int)
    (hfit : ∀ a, p = some a →
      -(2 ^ 31) ≤ a - slot ∧ a - slot < 2 ^ 31 ∧ a ≠ slot) :
    OffsetPtr.get (OffsetPtr.store m slot p) slot = p ∧
    (OffsetPtr.toOffset slot none = 0 ∧
      OffsetPtr.get (OffsetPtr.store m slot none) slot = none) ∧
    (∀ t, OffsetPtr.get m slot = some t → t = slot + readI32 m slot) ∧
    (∀ t, OffsetPtr.get m slot = some t → t ≠ dstSlot →
      -(2 ^ 31) ≤ t - dstSlot → t - dstSlot < 2 ^ 31 →
      OffsetPtr.get (OffsetPtr.assign m dstSlot slot) dstSlot = some t) := by
  refine ⟨offsetPtr_get_store m slot p hfit, ⟨rfl, ?_⟩, ?_, ?_⟩
  · exact offsetPtr_get_store m slot none (by intro a h; cases h)
  · intro t ht
    unfold OffsetPtr.get at ht
    by_cases hz : readI32 m slot = 0
    · simp [hz] at ht
    · simp only [hz, if_false, Option.some.injEq] at ht
      omega
  · intro t ht hne hlo hhi
    unfold OffsetPtr.assign
    rw [ht]
    exact offsetPtr_get_store m dstSlot (some t)
      (by intro a h; injection h with h; subst h; exact ⟨hlo, hhi, hne⟩)

/-- C3 counterexample: the claim as stated fails for a non-null pointer equal
to the slot's own address — its distance 0 fits in the signed 32-bit offset,
but it is stored as raw offset 0 and reads back as null, not as the pointer. -/
theorem offsetPtr_self_pointer_counterexample :
    (-(2 ^ 31) ≤ (0 : Int) - 0 ∧ (0 : Int) - 0 < 2 ^ 31) ∧
    OffsetPtr.get (OffsetPtr.store memZero 0 (some 0)) 0 ≠ some 0 := by
  constructor
  · exact ⟨by norm_num, by norm_num⟩
  · decide

/-- Witness for `offsetPtr_roundtrip_spec` at slot 0 and pointer 8. -/
theorem offsetPtr_roundtrip_spec_witness :
    OffsetPtr.get (OffsetPtr.store memZero 0 (some 8)) 0 = some 8 :=
  (offsetPtr_roundtrip_spec memZero 0 100 (some 8)
    (by intro a h; injection h with h; subst h
        exact ⟨by norm_num, by norm_num, by norm_num⟩)).1

/-- C2 (amended): for every allocator state with
`sizeof(Allocator) ≤ used_space ≤ capacity` and a request of
`n = sizeof(T) * count` bytes with `count ≥ 1` and `n < 2^64` (no `size_t`
overflow): if `used_space + n > capacity` the allocation returns null and
leaves memory untouched; otherwise it returns the pointer at
`allocator address + used_space`, the `n` bytes there are zeroed, `used_space`
advances by exactly `n`, and `capacity` is unchanged.  (For `count = 0` the
source returns null up front — see the counterexample.) -/
theorem allocator_allocate_eq (m : Mem) (abase : Int) (sizeT count : Nat)
    (hc : count ≠ 0) :
    Allocator.Allocate m abase sizeT count =
      if sizeT * count % 2 ^ 64 >
          (2 ^ 64 + Allocator.capacity m abase -
            Allocator.usedSpace m abase) % 2 ^ 64 then
        (none, m)
      else
        (some (abase + (Allocator.usedSpace m abase : Int)),
          write32
            (zeroRange m (abase + (Allocator.usedSpace m abase : Int))
              (sizeT * count % 2 ^ 64))
            (abase + 4)
            (Allocator.usedSpace m abase + sizeT * count % 2 ^ 64)) := by
  unfold Allocator.Allocate
  simp only [hc, if_false]

theorem allocate_bump_spec (m : Mem) (abase : Int) (sizeT count : Nat)
    (hlow : sizeofAllocator ≤ Allocator.usedSpace m abase)
    (hcap : Allocator.usedSpace m abase ≤ Allocator.capacity m abase)
    (hcount : 1 ≤ count) (hfit : sizeT * count < 2 ^ 64) :
    (Allocator.capacity m abase < Allocator.usedSpace m abase + sizeT * count →
      Allocator.Allocate m abase sizeT count = (none, m)) ∧
    (Allocator.usedSpace m abase + sizeT * count ≤ Allocator.capacity m abase →
      (Allocator.Allocate m abase sizeT count).1 =
        some (abase + (Allocator.usedSpace m abase : Int)) ∧
      (∀ i : Nat, i < sizeT * count →
        read8 (Allocator.Allocate m abase sizeT count).2
          (abase + (Allocator.usedSpace m abase : Int) + (i : Int)) = 0) ∧
      Allocator.usedSpace (Allocator.Allocate m abase sizeT count).2 abase =
        Allocator.usedSpace m abase + sizeT * count ∧
      Allocator.capacity (Allocator.Allocate m abase sizeT count).2 abase =
        Allocator.capacity m abase) := by
  have hcnz : count ≠ 0 := by omega
  have hclt : Allocator.capacity m abase < 2 ^ 32 := read32_lt m abase
  have hreq : sizeT * count % 2 ^ 64 = sizeT * count := Nat.mod_eq_of_lt hfit
  have havail : (2 ^ 64 + Allocator.capacity m abase -
      Allocator.usedSpace m abase) % 2 ^ 64 =
      Allocator.capacity m abase - Allocator.usedSpace m abase := by
    omega
  rw [allocator_allocate_eq m abase sizeT count hcnz]
  constructor
  · intro hover
    have hg : sizeT * count % 2 ^ 64 >
        (2 ^ 64 + Allocator.capacity m abase -
          Allocator.usedSpace m abase) % 2 ^ 64 := by
      rw [hreq, havail]; omega
    rw [if_pos hg]
  · intro hok
    have hnover : ¬(sizeT * count % 2 ^ 64 >
        (2 ^ 64 + Allocator.capacity m abase -
          Allocator.usedSpace m abase) % 2 ^ 64) := by
      rw [hreq, havail]; omega
    rw [if_neg hnover]
    set used := Allocator.usedSpace m abase with hused
    have hlow8 : (8 : Int) ≤ (used : Int) := by
      have : sizeofAllocator ≤ used := hlow
      simp only [sizeofAllocator] at this
      exact_mod_cast this
    refine ⟨rfl, ?_, ?_, ?_⟩
    · intro i hi
      rw [read8_write32_outside _ _ _ _ (by right; omega)]
      exact read8_zeroRange_inside _ _ _ _ (by
        refine ⟨by omega, ?_⟩
        rw [hreq]
        push_cast
        omega)
    · unfold Allocator.usedSpace
      rw [read32_write32_same, hreq]
      omega
    · unfold Allocator.capacity
      rw [read32_write32_disjoint _ _ _ _ (by left; omega),
        read32_zeroRange_outside _ _ _ _ (by left; omega)]

/-- C2 counterexample: with ample free space (`used_space + 0 ≤ capacity`) a
zero-count request still returns null — the source returns null up front for
`count == 0`, while the claim (quantifying over every `count ≥ 0`) requires a
non-null pointer at `allocator address + used_space`. -/
theorem allocate_zero_count_counterexample :
    Allocator.usedSpace (Allocator.construct memZero 0 100) 0 + 4 * 0 ≤
      Allocator.capacity (Allocator.construct memZero 0 100) 0 ∧
    (Allocator.Allocate (Allocator.construct memZero 0 100) 0 4 0).1 = none := by
  constructor
  · decide
  · decide

/-- Witness for `allocate_bump_spec`: a successful 8-byte allocation from a
16-byte allocator returns the pointer just past the 8-byte header. -/
theorem allocate_bump_spec_witness :
    (Allocator.Allocate (Allocator.construct memZero 0 16) 0 4 2).1 = some 8 := by
  have h := allocate_bump_spec (Allocator.construct memZero 0 16) 0 4 2
    (by decide) (by decide) (by decide) (by decide)
  have h2 := (h.2 (by decide)).1
  simpa using h2

/-- C10: whenever `Allocator::Allocate` fails (returns null) — zero count or
insufficient remaining space — the memory is returned exactly as it was: the
`used_space` and `capacity` fields and every previously allocated byte are
unchanged. -/
theorem allocate_failure_atomic (m : Mem) (abase : Int) (sizeT count : Nat)
    (h : (Allocator.Allocate m abase sizeT count).1 = none) :
    (Allocator.Allocate m abase sizeT count).2 = m := by
  by_cases hc : count = 0
  · subst hc
    rfl
  · rw [allocator_allocate_eq m abase sizeT count hc] at h ⊢
    by_cases hg : sizeT * count % 2 ^ 64 >
        (2 ^ 64 + Allocator.capacity m abase -
          Allocator.usedSpace m abase) % 2 ^ 64
    · rw [if_pos hg]
    · rw [if_neg hg] at h
      simp at h

/-- Witness for `allocate_failure_atomic`: an 8-byte request against 4 free
bytes fails and returns the memory unchanged. -/
theorem allocate_failure_atomic_witness :
    (Allocator.Allocate (Allocator.construct memZero 0 12) 0 4 2).2 =
      Allocator.construct memZero 0 12 :=
  allocate_failure_atomic (Allocator.construct memZero 0 12) 0 4 2 (by decide)

theorem struct_capacity_some (m : Mem) (base ab : Int)
    (h : Struct.allocatorPtr m base = some ab) :
    Struct.capacity m base = Struct.structSize m base + Allocator.capacity m ab := by
  unfold Struct.capacity
  rw [h]

theorem struct_capacity_none (m : Mem) (base : Int)
    (h : Struct.allocatorPtr m base = none) :
    Struct.capacity m base = Struct.structSize m base := by
  unfold Struct.capacity
  rw [h]
  simp

theorem struct_usedSpace_some (m : Mem) (base ab : Int)
    (h : Struct.allocatorPtr m base = some ab) :
    Struct.usedSpace m base = Struct.structSize m base + Allocator.usedSpace m ab := by
  unfold Struct.usedSpace
  rw [h]

theorem struct_usedSpace_none (m : Mem) (base : Int)
    (h : Struct.allocatorPtr m base = none) :
    Struct.usedSpace m base = Struct.structSize m base := by
  unfold Struct.usedSpace
  rw [h]
  simp

/-- C5 (amended): after constructing a block of `cap` total bytes for a record
of `sizeS` bytes, `capacity()` equals `record_size + (allocator ?
allocator.capacity : 0)` — which is the total bytes owned, `cap` — and
`used_space()` equals `record_size + (allocator ? allocator.used_space : 0)`,
initially `sizeS + sizeof(Allocator)` when trailing free space exists.  (The
spec's `- sizeof(Allocator)` term does not appear — see the counterexample.) -/
theorem capacity_accounting (m : Mem) (base : Int) (sizeS cap : Nat)
    (h8 : 8 ≤ sizeS) (hS : sizeS < 2 ^ 31) (hle : sizeS ≤ cap)
    (hcap : cap < 2 ^ 32) :
    (sizeS < cap →
      Struct.allocatorPtr (Struct.InplaceNew m base sizeS cap) base =
        some (base + (sizeS : Int)) ∧
      Struct.capacity (Struct.InplaceNew m base sizeS cap) base = cap ∧
      Struct.usedSpace (Struct.InplaceNew m base sizeS cap) base =
        sizeS + sizeofAllocator) ∧
    (sizeS = cap →
      Struct.allocatorPtr (Struct.InplaceNew m base sizeS cap) base = none ∧
      Struct.capacity (Struct.InplaceNew m base sizeS cap) base = cap ∧
      Struct.usedSpace (Struct.InplaceNew m base sizeS cap) base = cap) := by
  have hSle : (8 : Int) ≤ (sizeS : Int) := by exact_mod_cast h8
  constructor
  · intro hlt
    have hfree : (2 ^ 64 + cap - sizeS) % 2 ^ 64 = cap - sizeS := by omega
    have hfreenz : cap - sizeS ≠ 0 := by omega
    have hm' : Struct.InplaceNew m base sizeS cap =
        OffsetPtr.store
          (Allocator.construct (write32 m base sizeS) (base + (sizeS : Int))
            (cap - sizeS))
          (base + 4) (some (base + (sizeS : Int))) := by
      unfold Struct.InplaceNew Struct.Init
      rw [hfree]
      simp only [hfreenz, ne_eq, not_false_eq_true, if_true, if_pos]
    rw [hm']
    have hptr : OffsetPtr.get
        (OffsetPtr.store
          (Allocator.construct (write32 m base sizeS) (base + (sizeS : Int))
            (cap - sizeS))
          (base + 4) (some (base + (sizeS : Int)))) (base + 4) =
        some (base + (sizeS : Int)) := by
      apply offsetPtr_get_store
      intro a h
      injection h with h
      subst h
      refine ⟨by omega, by omega, by omega⟩
    have hss : Struct.structSize
        (OffsetPtr.store
          (Allocator.construct (write32 m base sizeS) (base + (sizeS : Int))
            (cap - sizeS))
          (base + 4) (some (base + (sizeS : Int)))) base = sizeS := by
      unfold Struct.structSize OffsetPtr.store Allocator.construct
      rw [read32_write32_disjoint _ _ _ _ (by left; omega),
        read32_write32_disjoint _ _ _ _ (by left; omega),
        read32_write32_disjoint _ _ _ _ (by left; omega),
        read32_write32_same]
      omega
    have hac : Allocator.capacity
        (OffsetPtr.store
          (Allocator.construct (write32 m base sizeS) (base + (sizeS : Int))
            (cap - sizeS))
          (base + 4) (some (base + (sizeS : Int)))) (base + (sizeS : Int)) =
        cap - sizeS := by
      unfold Allocator.capacity OffsetPtr.store Allocator.construct
      rw [read32_write32_disjoint _ _ _ _ (by right; omega),
        read32_write32_disjoint _ _ _ _ (by left; omega),
        read32_write32_same]
      omega
    have hau : Allocator.usedSpace
        (OffsetPtr.store
          (Allocator.construct (write32 m base sizeS) (base + (sizeS : Int))
            (cap - sizeS))
          (base + 4) (some (base + (sizeS : Int)))) (base + (sizeS : Int)) =
        sizeofAllocator := by
      unfold Allocator.usedSpace OffsetPtr.store Allocator.construct
      rw [read32_write32_disjoint _ _ _ _ (by right; omega),
        read32_write32_same]
      rfl
    refine ⟨hptr, ?_, ?_⟩
    · rw [struct_capacity_some _ _ _ hptr, hss, hac]
      omega
    · rw [struct_usedSpace_some _ _ _ hptr, hss, hau]
  · intro heq
    have hfree : (2 ^ 64 + cap - sizeS) % 2 ^ 64 = 0 := by omega
    have hm' : Struct.InplaceNew m base sizeS cap =
        OffsetPtr.store (write32 m base sizeS) (base + 4) none := by
      unfold Struct.InplaceNew Struct.Init
      rw [hfree]
      simp
    rw [hm']
    have hptr : OffsetPtr.get
        (OffsetPtr.store (write32 m base sizeS) (base + 4) none) (base + 4) =
        none :=
      offsetPtr_get_store _ _ none (by intro a h; cases h)
    have hss : Struct.structSize
        (OffsetPtr.store (write32 m base sizeS) (base + 4) none) base = sizeS := by
      unfold Struct.structSize OffsetPtr.store
      rw [read32_write32_disjoint _ _ _ _ (by left; omega), read32_write32_same]
      omega
    refine ⟨hptr, ?_, ?_⟩
    · rw [struct_capacity_none _ _ hptr, hss]
      omega
    · rw [struct_usedSpace_none _ _ hptr, hss]
      omega

/-- C5 counterexample: for a 32-byte block with an 8-byte record, `capacity()`
is 32 (total bytes owned) but the claim's formula
`record_size + (allocator.capacity - sizeof(Allocator))` gives 24, and
`used_space()` is 16 while `record_size + (allocator.used_space -
sizeof(Allocator))` gives 8 — the `- sizeof(Allocator)` term is not in the
code. -/
theorem capacity_formula_counterexample :
    Struct.capacity (Struct.InplaceNew memZero 0 8 32) 0 ≠
      Struct.structSize (Struct.InplaceNew memZero 0 8 32) 0 +
        (match Struct.allocatorPtr (Struct.InplaceNew memZero 0 8 32) 0 with
          | none => 0
          | some ab =>
            Allocator.capacity (Struct.InplaceNew memZero 0 8 32) ab -
              sizeofAllocator) ∧
    Struct.usedSpace (Struct.InplaceNew memZero 0 8 32) 0 ≠
      Struct.structSize (Struct.InplaceNew memZero 0 8 32) 0 +
        (match Struct.allocatorPtr (Struct.InplaceNew memZero 0 8 32) 0 with
          | none => 0
          | some ab =>
            Allocator.usedSpace (Struct.InplaceNew memZero 0 8 32) ab -
              sizeofAllocator) := by
  constructor
  · decide
  · decide

/-- Witness for `capacity_accounting`: the 32-byte block with an 8-byte record
reports `capacity() = 32` and `used_space() = 16`. -/
theorem capacity_accounting_witness :
    Struct.capacity (Struct.InplaceNew memZero 0 8 32) 0 = 32 ∧
    Struct.usedSpace (Struct.InplaceNew memZero 0 8 32) 0 = 8 + sizeofAllocator := by
  have h := capacity_accounting memZero 0 8 32 (by norm_num) (by norm_num)
    (by norm_num) (by norm_num)
  exact ⟨(h.1 (by norm_num)).2.1, (h.1 (by norm_num)).2.2⟩

-- raw (per-address) non-interference lemmas

theorem write8_apply_ne (m : Mem) (a : Int) (v : Nat) (x : Int) (h : x ≠ a) :
    write8 m a v x = m x := by
  simp [write8, h]

theorem write32_apply_outside (m : Mem) (a : Int) (v : Nat) (x : Int)
    (h : x < a ∨ a + 4 ≤ x) : write32 m a v x = m x := by
  unfold write32
  rw [write8_apply_ne _ _ _ _ (by omega), write8_apply_ne _ _ _ _ (by omega),
    write8_apply_ne _ _ _ _ (by omega), write8_apply_ne _ _ _ _ (by omega)]

theorem store_apply_outside (m : Mem) (slot : Int) (p : Option Int) (x : Int)
    (h : x < slot ∨ slot + 4 ≤ x) : OffsetPtr.store m slot p x = m x :=
  write32_apply_outside _ _ _ _ h

theorem memcpy_apply_outside (m : Mem) (dst src : Int) (n : Nat) (x : Int)
    (h : x < dst ∨ dst + (n : Int) ≤ x) : memcpy m dst src n x = m x := by
  have : ¬(dst ≤ x ∧ x < dst + (n : Int)) := by omega
  simp [memcpy, this]

theorem read32_eq_on (m m' : Mem) (a : Int)
    (h : ∀ x : Int, a ≤ x → x < a + 4 → m' x = m x) :
    read32 m' a = read32 m a := by
  simp only [read32, read8]
  rw [h a (by omega) (by omega), h (a + 1) (by omega) (by omega),
    h (a + 2) (by omega) (by omega), h (a + 3) (by omega) (by omega)]

theorem readI32_eq_on (m m' : Mem) (a : Int)
    (h : ∀ x : Int, a ≤ x → x < a + 4 → m' x = m x) :
    readI32 m' a = readI32 m a := by
  simp only [readI32]
  rw [read32_eq_on m m' a h]

theorem init_apply_outside (m : Mem) (base : Int) (sizeS free : Nat) (x : Int)
    (h8 : 8 ≤ sizeS) (h : x < base ∨ base + (sizeS : Int) + 8 ≤ x) :
    Struct.Init m base sizeS free x = m x := by
  have hS : (8 : Int) ≤ (sizeS : Int) := by exact_mod_cast h8
  unfold Struct.Init Allocator.construct
  by_cases hf : free ≠ 0
  · rw [if_pos hf]
    rw [store_apply_outside _ _ _ _ (by omega),
      write32_apply_outside _ _ _ _ (by omega),
      write32_apply_outside _ _ _ _ (by omega),
      write32_apply_outside _ _ _ _ (by omega)]
  · rw [if_neg hf]
    rw [store_apply_outside _ _ _ _ (by omega),
      write32_apply_outside _ _ _ _ (by omega)]

theorem get_eq_some_iff (m : Mem) (slot t : Int) :
    OffsetPtr.get m slot = some t ↔
      readI32 m slot ≠ 0 ∧ t = slot + readI32 m slot := by
  unfold OffsetPtr.get
  by_cases hz : readI32 m slot = 0
  · simp [hz]
  · simp only [hz, if_false, Option.some.injEq, ne_eq, not_false_eq_true,
      true_and]
    constructor
    · intro h; omega
    · intro h; omega

theorem get_eq_none_iff (m : Mem) (slot : Int) :
    OffsetPtr.get m slot = none ↔ readI32 m slot = 0 := by
  unfold OffsetPtr.get
  by_cases hz : readI32 m slot = 0
  · simp [hz]
  · simp [hz]

theorem readI32_memcpy_header (m : Mem) (base s : Int) (u : Nat)
    (hu : (8 : Int) ≤ (u : Int)) :
    readI32 (memcpy m base s u) (base + 4) = readI32 m (s + 4) := by
  unfold readI32
  rw [read32_memcpy_inside _ _ _ _ _ ⟨by omega, by omega⟩,
    show s + (base + 4 - base) = s + 4 by omega]

theorem structSize_memcpy (m : Mem) (base s : Int) (u : Nat)
    (hu : (4 : Int) ≤ (u : Int)) :
    Struct.structSize (memcpy m base s u) base = Struct.structSize m s := by
  unfold Struct.structSize
  rw [read32_memcpy_inside _ _ _ _ _ ⟨by omega, by omega⟩,
    show s + (base - base) = s by omega]

theorem struct_copy_some_eq (m : Mem) (base s : Int) :
    Struct.Copy m base (some s) =
      if Struct.capacity m base < Struct.usedSpace m s then (false, m)
      else
        match Struct.allocatorPtr (memcpy m base s (Struct.usedSpace m s))
            base with
        | none => (true, memcpy m base s (Struct.usedSpace m s))
        | some ab =>
          (true,
            write32 (memcpy m base s (Struct.usedSpace m s)) ab
              ((2 ^ 64 + Struct.capacity m base -
                Struct.structSize (memcpy m base s (Struct.usedSpace m s))
                  base) % 2 ^ 64)) := rfl

/-- C8 (amended): `Copy(src)` returns false, modifying nothing, exactly when
`src` is null or the destination's `capacity()` is smaller than
`src->used_space()`.  On success exactly `src->used_space()` bytes are
copied: when the copied block has no allocator the result is precisely the
memcpy; when `src` carries an allocator at offset `j` into its block (the
well-formed layout), no byte outside the destination's `used_space` window is
modified and `capacity()` after the call equals `capacity()` before.  (When
`src` has no allocator the destination's capacity becomes `src`'s record
size — see the counterexample.) -/
theorem copy_spec (m : Mem) (base s j : Int)
    (hcap32 : Struct.capacity m base < 2 ^ 32) :
    Struct.Copy m base none = (false, m) ∧
    (Struct.capacity m base < Struct.usedSpace m s →
      Struct.Copy m base (some s) = (false, m)) ∧
    (Struct.usedSpace m s ≤ Struct.capacity m base →
      (Struct.Copy m base (some s)).1 = true ∧
      (Struct.allocatorPtr m s = none → 8 ≤ Struct.usedSpace m s →
        (Struct.Copy m base (some s)).2 =
          memcpy m base s (Struct.usedSpace m s)) ∧
      (Struct.allocatorPtr m s = some (s + j) → 8 ≤ j →
        j + 8 ≤ (Struct.usedSpace m s : Int) →
        (∀ x : Int, x < base ∨ base + (Struct.usedSpace m s : Int) ≤ x →
          (Struct.Copy m base (some s)).2 x = m x) ∧
        Struct.capacity (Struct.Copy m base (some s)).2 base =
          Struct.capacity m base ∧
        Struct.usedSpace (Struct.Copy m base (some s)).2 base =
          Struct.usedSpace m s)) := by
  refine ⟨rfl, ?_, ?_⟩
  · intro h
    rw [struct_copy_some_eq, if_pos h]
  · intro hle
    have hcopy : Struct.Copy m base (some s) =
        (match Struct.allocatorPtr (memcpy m base s (Struct.usedSpace m s))
            base with
         | none => (true, memcpy m base s (Struct.usedSpace m s))
         | some ab =>
           (true,
             write32 (memcpy m base s (Struct.usedSpace m s)) ab
               ((2 ^ 64 + Struct.capacity m base -
                 Struct.structSize (memcpy m base s (Struct.usedSpace m s))
                   base) % 2 ^ 64))) := by
      rw [struct_copy_some_eq, if_neg (by omega)]
    refine ⟨?_, ?_, ?_⟩
    · rw [hcopy]
      cases hX : Struct.allocatorPtr (memcpy m base s (Struct.usedSpace m s))
          base with
      | none => rfl
      | some ab => rfl
    · intro hnone h8
      have hu : (8 : Int) ≤ ((Struct.usedSpace m s : Nat) : Int) := by
        exact_mod_cast h8
      have hz : readI32 m (s + 4) = 0 := (get_eq_none_iff m (s + 4)).1 hnone
      have hX : Struct.allocatorPtr (memcpy m base s (Struct.usedSpace m s))
          base = none := by
        unfold Struct.allocatorPtr
        rw [get_eq_none_iff, readI32_memcpy_header m base s _ hu, hz]
      rw [hcopy, hX]
    · intro hsome h8j hj8
      have hru : readI32 m (s + 4) = j - 4 := by
        have h := (get_eq_some_iff m (s + 4) (s + j)).1 hsome
        omega
      have hu16 : (16 : Int) ≤ ((Struct.usedSpace m s : Nat) : Int) := by
        omega
      have hrm : readI32 (memcpy m base s (Struct.usedSpace m s)) (base + 4) =
          j - 4 := by
        rw [readI32_memcpy_header m base s _ (by omega), hru]
      have hX : Struct.allocatorPtr (memcpy m base s (Struct.usedSpace m s))
          base = some (base + j) := by
        unfold Struct.allocatorPtr
        rw [get_eq_some_iff, hrm]
        exact ⟨by omega, by omega⟩
      have hssm : Struct.structSize (memcpy m base s (Struct.usedSpace m s))
          base = Struct.structSize m s :=
        structSize_memcpy m base s _ (by omega)
      have hssle : Struct.structSize m s ≤ Struct.usedSpace m s := by
        rw [struct_usedSpace_some m s (s + j) hsome]
        omega
      have hv : (2 ^ 64 + Struct.capacity m base - Struct.structSize m s) %
          2 ^ 64 = Struct.capacity m base - Struct.structSize m s := by
        omega
      have hm2 : (Struct.Copy m base (some s)).2 =
          write32 (memcpy m base s (Struct.usedSpace m s)) (base + j)
            (Struct.capacity m base - Struct.structSize m s) := by
        rw [hcopy, hX, hssm, hv]
      refine ⟨?_, ?_, ?_⟩
      · intro x hx
        rw [hm2, write32_apply_outside _ _ _ _ (by omega),
          memcpy_apply_outside _ _ _ _ _ (by omega)]
      · have hss2 : Struct.structSize (Struct.Copy m base (some s)).2 base =
            Struct.structSize m s := by
          rw [hm2]
          unfold Struct.structSize
          rw [read32_write32_disjoint _ _ _ _ (by left; omega)]
          exact structSize_memcpy m base s _ (by omega)
        have hptr2 : Struct.allocatorPtr (Struct.Copy m base (some s)).2 base =
            some (base + j) := by
          unfold Struct.allocatorPtr
          rw [get_eq_some_iff]
          have : readI32 (Struct.Copy m base (some s)).2 (base + 4) = j - 4 := by
            rw [hm2]
            unfold readI32
            rw [read32_write32_disjoint _ _ _ _ (by left; omega)]
            have := hrm
            unfold readI32 at this
            exact_mod_cast this
          rw [this]
          exact ⟨by omega, by omega⟩
        have hac2 : Allocator.capacity (Struct.Copy m base (some s)).2
            (base + j) = Struct.capacity m base - Struct.structSize m s := by
          rw [hm2]
          unfold Allocator.capacity
          rw [read32_write32_same]
          omega
        rw [struct_capacity_some _ _ _ hptr2, hss2, hac2]
        omega
      · have hss2 : Struct.structSize (Struct.Copy m base (some s)).2 base =
            Struct.structSize m s := by
          rw [hm2]
          unfold Struct.structSize
          rw [read32_write32_disjoint _ _ _ _ (by left; omega)]
          exact structSize_memcpy m base s _ (by omega)
        have hptr2 : Struct.allocatorPtr (Struct.Copy m base (some s)).2 base =
            some (base + j) := by
          unfold Struct.allocatorPtr
          rw [get_eq_some_iff]
          have : readI32 (Struct.Copy m base (some s)).2 (base + 4) = j - 4 := by
            rw [hm2]
            unfold readI32
            rw [read32_write32_disjoint _ _ _ _ (by left; omega)]
            have := hrm
            unfold readI32 at this
            exact_mod_cast this
          rw [this]
          exact ⟨by omega, by omega⟩
        have hau2 : Allocator.usedSpace (Struct.Copy m base (some s)).2
            (base + j) = Allocator.usedSpace m (s + j) := by
          rw [hm2]
          unfold Allocator.usedSpace
          rw [read32_write32_disjoint _ _ _ _ (by right; omega),
            read32_memcpy_inside _ _ _ _ _ ⟨by omega, by omega⟩,
            show s + (base + j + 4 - base) = s + j + 4 by omega]
        rw [struct_usedSpace_some _ _ _ hptr2, hss2, hau2,
          struct_usedSpace_some m s (s + j) hsome]

/-- C8 counterexample: copying from a source block that has **no** allocator
(its capacity equals its record size) succeeds but shrinks the destination's
`capacity()` — here from 32 to 16 — contradicting the claim that `capacity()`
is always preserved. -/
theorem copy_capacity_counterexample :
    (Struct.Copy
        (Struct.InplaceNew (Struct.InplaceNew memZero 0 8 32) 100 16 16)
        0 (some 100)).1 = true ∧
    Struct.capacity
        (Struct.Copy
          (Struct.InplaceNew (Struct.InplaceNew memZero 0 8 32) 100 16 16)
          0 (some 100)).2 0 ≠
      Struct.capacity
        (Struct.InplaceNew (Struct.InplaceNew memZero 0 8 32) 100 16 16) 0 := by
  constructor
  · decide
  · decide

/-- Witness for `copy_spec`: copying a well-formed 24-byte-used source into a
32-byte destination succeeds and preserves the destination's capacity. -/
theorem copy_spec_witness :
    (Struct.Copy
        (Struct.InplaceNew (Struct.InplaceNew memZero 0 8 32) 100 8 24)
        0 (some 100)).1 = true ∧
    Struct.capacity
        (Struct.Copy
          (Struct.InplaceNew (Struct.InplaceNew memZero 0 8 32) 100 8 24)
          0 (some 100)).2 0 =
      Struct.capacity
        (Struct.InplaceNew (Struct.InplaceNew memZero 0 8 32) 100 8 24) 0 := by
  have h := copy_spec
    (Struct.InplaceNew (Struct.InplaceNew memZero 0 8 32) 100 8 24) 0 100 8
    (by decide)
  have h3 := h.2.2 (by decide)
  exact ⟨h3.1, (h3.2.2 (by decide) (by decide) (by decide)).2.1⟩

theorem init_apply_outside_nofree (m : Mem) (base : Int) (sizeS : Nat) (x : Int)
    (h : x < base ∨ base + 8 ≤ x) : Struct.Init m base sizeS 0 x = m x := by
  unfold Struct.Init
  rw [if_neg (by simp)]
  rw [store_apply_outside _ _ _ _ (by omega),
    write32_apply_outside _ _ _ _ (by omega)]

/-- C9: `NewCopy(src)` sizes the fresh block to exactly `src->used_space()`
and byte-copies into it; the result has `used_space()` equal to the source's
and `capacity()` equal to its own `used_space()` — the new block is exactly
full.  Holds both when the source carries an allocator (at its standard
offset `sizeof(S)`, with at least its own header used) and when it has none. -/
theorem newCopy_roundtrip (m : Mem) (newBase s : Int) (sizeS : Nat)
    (h8 : 8 ≤ sizeS) (hS : sizeS < 2 ^ 31)
    (hss : Struct.structSize m s = sizeS)
    (hu32 : Struct.usedSpace m s < 2 ^ 32)
    (hdisj : newBase + (Struct.usedSpace m s : Int) ≤ s ∨
      s + (Struct.usedSpace m s : Int) ≤ newBase) :
    (Struct.allocatorPtr m s = some (s + (sizeS : Int)) →
      sizeofAllocator ≤ Allocator.usedSpace m (s + (sizeS : Int)) →
      (Struct.NewCopy m newBase sizeS (some s)).1 = some newBase ∧
      Struct.usedSpace (Struct.NewCopy m newBase sizeS (some s)).2 newBase =
        Struct.usedSpace m s ∧
      Struct.capacity (Struct.NewCopy m newBase sizeS (some s)).2 newBase =
        Struct.usedSpace (Struct.NewCopy m newBase sizeS (some s)).2 newBase) ∧
    (Struct.allocatorPtr m s = none →
      (Struct.NewCopy m newBase sizeS (some s)).1 = some newBase ∧
      Struct.usedSpace (Struct.NewCopy m newBase sizeS (some s)).2 newBase =
        Struct.usedSpace m s ∧
      Struct.capacity (Struct.NewCopy m newBase sizeS (some s)).2 newBase =
        Struct.usedSpace (Struct.NewCopy m newBase sizeS (some s)).2 newBase) := by
  have hnc : Struct.NewCopy m newBase sizeS (some s) =
      (some newBase,
        (Struct.Copy (Struct.InplaceNew m newBase sizeS (Struct.usedSpace m s))
          newBase (some s)).2) := rfl
  have h8I : (8 : Int) ≤ (sizeS : Int) := by exact_mod_cast h8
  constructor
  · intro halloc hau8
    have hau8' : (8 : Nat) ≤ Allocator.usedSpace m (s + (sizeS : Int)) := hau8
    have hudecomp : Struct.usedSpace m s =
        sizeS + Allocator.usedSpace m (s + (sizeS : Int)) := by
      rw [struct_usedSpace_some m s _ halloc, hss]
    have huS : sizeS + 8 ≤ Struct.usedSpace m s := by omega
    have huI : (sizeS : Int) + 8 ≤ ((Struct.usedSpace m s : Nat) : Int) := by
      exact_mod_cast huS
    have hca := capacity_accounting m newBase sizeS (Struct.usedSpace m s)
      h8 hS (by omega) hu32
    obtain ⟨hptr1, hcap1, hus1⟩ := hca.1 (by omega)
    have hpres : ∀ x : Int, s ≤ x → x < s + (Struct.usedSpace m s : Int) →
        Struct.InplaceNew m newBase sizeS (Struct.usedSpace m s) x = m x := by
      intro x hx1 hx2
      unfold Struct.InplaceNew
      apply init_apply_outside _ _ _ _ _ h8
      rcases hdisj with h | h
      · right; omega
      · left; omega
    have hss1 : Struct.structSize
        (Struct.InplaceNew m newBase sizeS (Struct.usedSpace m s)) s = sizeS := by
      unfold Struct.structSize
      rw [read32_eq_on m _ s (fun x hx1 hx2 => hpres x (by omega) (by omega))]
      exact hss
    have hri1 : readI32
        (Struct.InplaceNew m newBase sizeS (Struct.usedSpace m s)) (s + 4) =
        readI32 m (s + 4) :=
      readI32_eq_on m _ (s + 4) (fun x hx1 hx2 => hpres x (by omega) (by omega))
    have hptr1s : Struct.allocatorPtr
        (Struct.InplaceNew m newBase sizeS (Struct.usedSpace m s)) s =
        some (s + (sizeS : Int)) := by
      unfold Struct.allocatorPtr at halloc ⊢
      rw [get_eq_some_iff] at halloc ⊢
      rw [hri1]
      exact halloc
    have hau1 : Allocator.usedSpace
        (Struct.InplaceNew m newBase sizeS (Struct.usedSpace m s))
        (s + (sizeS : Int)) = Allocator.usedSpace m (s + (sizeS : Int)) := by
      unfold Allocator.usedSpace
      exact read32_eq_on m _ (s + (sizeS : Int) + 4)
        (fun x hx1 hx2 => hpres x (by omega) (by omega))
    have husd1 : Struct.usedSpace
        (Struct.InplaceNew m newBase sizeS (Struct.usedSpace m s)) s =
        Struct.usedSpace m s := by
      rw [struct_usedSpace_some _ _ _ hptr1s, hss1, hau1, hudecomp]
    have hcs := copy_spec
      (Struct.InplaceNew m newBase sizeS (Struct.usedSpace m s)) newBase s
      (sizeS : Int) (by rw [hcap1]; exact hu32)
    have h3 := hcs.2.2 (by rw [husd1, hcap1])
    have hwf := h3.2.2 hptr1s h8I (by rw [husd1]; exact huI)
    refine ⟨by rw [hnc], ?_, ?_⟩
    · rw [hnc]
      exact hwf.2.2.trans husd1
    · rw [hnc]
      have e1 := hwf.2.1
      have e2 := hwf.2.2
      rw [e1, e2, hcap1, husd1]
  · intro hnonealloc
    have hueq : Struct.usedSpace m s = sizeS := by
      rw [struct_usedSpace_none m s hnonealloc, hss]
    have hca := capacity_accounting m newBase sizeS (Struct.usedSpace m s)
      h8 hS (by omega) hu32
    obtain ⟨hptr1, hcap1, hus1⟩ := hca.2 hueq.symm
    have hfz : (2 ^ 64 + Struct.usedSpace m s - sizeS) % 2 ^ 64 = 0 := by
      omega
    have hpres : ∀ x : Int, s ≤ x → x < s + (Struct.usedSpace m s : Int) →
        Struct.InplaceNew m newBase sizeS (Struct.usedSpace m s) x = m x := by
      intro x hx1 hx2
      unfold Struct.InplaceNew
      rw [hfz]
      apply init_apply_outside_nofree
      have huI : ((Struct.usedSpace m s : Nat) : Int) = (sizeS : Int) := by
        exact_mod_cast hueq
      rcases hdisj with h | h
      · right; omega
      · left; omega
    have huI8 : (8 : Int) ≤ ((Struct.usedSpace m s : Nat) : Int) := by
      have : (8 : Nat) ≤ Struct.usedSpace m s := by omega
      exact_mod_cast this
    have hss1 : Struct.structSize
        (Struct.InplaceNew m newBase sizeS (Struct.usedSpace m s)) s = sizeS := by
      unfold Struct.structSize
      rw [read32_eq_on m _ s (fun x hx1 hx2 => hpres x (by omega) (by omega))]
      exact hss
    have hri1 : readI32
        (Struct.InplaceNew m newBase sizeS (Struct.usedSpace m s)) (s + 4) =
        readI32 m (s + 4) :=
      readI32_eq_on m _ (s + 4) (fun x hx1 hx2 => hpres x (by omega) (by omega))
    have hptr1s : Struct.allocatorPtr
        (Struct.InplaceNew m newBase sizeS (Struct.usedSpace m s)) s = none := by
      unfold Struct.allocatorPtr at hnonealloc ⊢
      rw [get_eq_none_iff] at hnonealloc ⊢
      rw [hri1]
      exact hnonealloc
    have husd1 : Struct.usedSpace
        (Struct.InplaceNew m newBase sizeS (Struct.usedSpace m s)) s =
        Struct.usedSpace m s := by
      rw [struct_usedSpace_none _ _ hptr1s, hss1, hueq]
    have hcs := copy_spec
      (Struct.InplaceNew m newBase sizeS (Struct.usedSpace m s)) newBase s 0
      (by rw [hcap1]; exact hu32)
    have h3 := hcs.2.2 (by rw [husd1, hcap1])
    have hmc := h3.2.1 hptr1s (by rw [husd1, hueq]; exact h8)
    have hssmc : Struct.structSize
        (memcpy (Struct.InplaceNew m newBase sizeS (Struct.usedSpace m s))
          newBase s
          (Struct.usedSpace
            (Struct.InplaceNew m newBase sizeS (Struct.usedSpace m s)) s))
        newBase = sizeS := by
      rw [structSize_memcpy _ _ _ _ (by rw [husd1]; omega), hss1]
    have hrimc : readI32
        (memcpy (Struct.InplaceNew m newBase sizeS (Struct.usedSpace m s))
          newBase s
          (Struct.usedSpace
            (Struct.InplaceNew m newBase sizeS (Struct.usedSpace m s)) s))
        (newBase + 4) = 0 := by
      rw [readI32_memcpy_header _ _ _ _ (by rw [husd1]; omega), hri1]
      unfold Struct.allocatorPtr at hnonealloc
      exact (get_eq_none_iff m (s + 4)).1 hnonealloc
    have hptrmc : Struct.allocatorPtr
        (memcpy (Struct.InplaceNew m newBase sizeS (Struct.usedSpace m s))
          newBase s
          (Struct.usedSpace
            (Struct.InplaceNew m newBase sizeS (Struct.usedSpace m s)) s))
        newBase = none := by
      unfold Struct.allocatorPtr
      rw [get_eq_none_iff]
      exact hrimc
    refine ⟨by rw [hnc], ?_, ?_⟩
    · rw [hnc]
      rw [hmc, struct_usedSpace_none _ _ hptrmc, hssmc, hueq]
    · rw [hnc]
      rw [hmc, struct_usedSpace_none _ _ hptrmc,
        struct_capacity_none _ _ hptrmc]

/-- Witness for `newCopy_roundtrip`: copying a 32-byte block with 16 used
bytes yields a block with 16 used bytes whose capacity equals its used space. -/
theorem newCopy_roundtrip_witness :
    Struct.usedSpace
        (Struct.NewCopy (Struct.InplaceNew memZero 100 8 32) 0 8 (some 100)).2
        0 =
      Struct.usedSpace (Struct.InplaceNew memZero 100 8 32) 100 ∧
    Struct.capacity
        (Struct.NewCopy (Struct.InplaceNew memZero 100 8 32) 0 8 (some 100)).2
        0 =
      Struct.usedSpace
        (Struct.NewCopy (Struct.InplaceNew memZero 100 8 32) 0 8 (some 100)).2
        0 := by
  have h := (newCopy_roundtrip (Struct.InplaceNew memZero 100 8 32) 0 100 8
    (by decide) (by decide) (by decide) (by decide) (by decide)).1
    (by decide) (by decide)
  exact ⟨h.2.1, h.2.2⟩

/-- C1 (amended): for a byte-for-byte copy of the first `n` used bytes of a
block to a new base, every value read is bit-identical — bytes of elements
(`readBytes`, covering Vector/List element access and iteration), C-string
contents, `capacity()` and `used_space()` — while `OffsetPtr::get` on the
copy returns the *rebased* pointer, the original target translated by the
difference of bases (so `get`'s raw result is not bit-identical: see the
counterexample). -/
theorem relocation_reads (m m' : Mem) (b b' : Int) (n : Nat)
    (hag : Agrees m m' b b' n) :
    (∀ k : Nat, k + 4 ≤ n →
      OffsetPtr.get m' (b' + (k : Int)) =
        (OffsetPtr.get m (b + (k : Int))).map (fun a => a + (b' - b))) ∧
    (∀ k len : Nat, k + len ≤ n →
      readBytes m' (b' + (k : Int)) len = readBytes m (b + (k : Int)) len) ∧
    (∀ k fuel : Nat, k + fuel ≤ n →
      cStrBytes m' (b' + (k : Int)) fuel = cStrBytes m (b + (k : Int)) fuel) ∧
    (8 ≤ n →
      (Struct.allocatorPtr m b = none →
        Struct.capacity m' b' = Struct.capacity m b ∧
        Struct.usedSpace m' b' = Struct.usedSpace m b) ∧
      (∀ j : Nat, Struct.allocatorPtr m b = some (b + (j : Int)) →
        j + 8 ≤ n →
        Struct.capacity m' b' = Struct.capacity m b ∧
        Struct.usedSpace m' b' = Struct.usedSpace m b)) := by
  have hb0' : b' + ((0 : Nat) : Int) = b' := by push_cast; omega
  have hb0 : b + ((0 : Nat) : Int) = b := by push_cast; omega
  refine ⟨?_, ?_, ?_, ?_⟩
  · intro k hk
    have hri := readI32_agrees m m' b b' n k hag hk
    unfold OffsetPtr.get
    rw [hri]
    by_cases hz : readI32 m (b + (k : Int)) = 0
    · simp [hz]
    · simp only [hz, if_false]
      rw [Option.map_some']
      exact congrArg some (by
        show b' + (k : Int) + readI32 m (b + (k : Int)) =
          b + (k : Int) + readI32 m (b + (k : Int)) + (b' - b)
        omega)
  · intro k len hk
    apply readBytes_congr
    intro i hi
    have := read8_agrees m m' b b' n (k + i) hag (by omega)
    have e' : b' + ((k + i : Nat) : Int) = b' + (k : Int) + (i : Int) := by
      push_cast; omega
    have e : b + ((k + i : Nat) : Int) = b + (k : Int) + (i : Int) := by
      push_cast; omega
    rw [e', e] at this
    exact this
  · intro k fuel hk
    apply cStrBytes_congr
    intro i hi
    have := read8_agrees m m' b b' n (k + i) hag (by omega)
    have e' : b' + ((k + i : Nat) : Int) = b' + (k : Int) + (i : Int) := by
      push_cast; omega
    have e : b + ((k + i : Nat) : Int) = b + (k : Int) + (i : Int) := by
      push_cast; omega
    rw [e', e] at this
    exact this
  · intro h8
    have hri4 : readI32 m' (b' + 4) = readI32 m (b + 4) := by
      have := readI32_agrees m m' b b' n 4 hag (by omega)
      have e' : b' + ((4 : Nat) : Int) = b' + 4 := by push_cast; omega
      have e : b + ((4 : Nat) : Int) = b + 4 := by push_cast; omega
      rw [e', e] at this
      exact this
    have hssagree : Struct.structSize m' b' = Struct.structSize m b := by
      unfold Struct.structSize
      have := read32_agrees m m' b b' n 0 hag (by omega)
      rw [hb0', hb0] at this
      exact this
    constructor
    · intro hnone
      have hz : readI32 m (b + 4) = 0 := by
        unfold Struct.allocatorPtr at hnone
        exact (get_eq_none_iff m (b + 4)).1 hnone
      have hnone' : Struct.allocatorPtr m' b' = none := by
        unfold Struct.allocatorPtr
        rw [get_eq_none_iff, hri4, hz]
      rw [struct_capacity_none _ _ hnone', struct_capacity_none _ _ hnone,
        struct_usedSpace_none _ _ hnone', struct_usedSpace_none _ _ hnone]
      exact ⟨hssagree, hssagree⟩
    · intro j hsome hjn
      have hj : readI32 m (b + 4) = (j : Int) - 4 := by
        unfold Struct.allocatorPtr at hsome
        have := (get_eq_some_iff m (b + 4) (b + (j : Int))).1 hsome
        omega
      have hjne : readI32 m (b + 4) ≠ 0 := by
        unfold Struct.allocatorPtr at hsome
        exact ((get_eq_some_iff m (b + 4) (b + (j : Int))).1 hsome).1
      have hj4 : (j : Int) - 4 ≠ 0 := by
        rw [hj] at hjne
        exact hjne
      have hsome' : Struct.allocatorPtr m' b' = some (b' + (j : Int)) := by
        unfold Struct.allocatorPtr
        rw [get_eq_some_iff, hri4, hj]
        exact ⟨hj4, by omega⟩
      have hacagree : Allocator.capacity m' (b' + (j : Int)) =
          Allocator.capacity m (b + (j : Int)) := by
        unfold Allocator.capacity
        exact read32_agrees m m' b b' n j hag (by omega)
      have hauagree : Allocator.usedSpace m' (b' + (j : Int)) =
          Allocator.usedSpace m (b + (j : Int)) := by
        unfold Allocator.usedSpace
        have := read32_agrees m m' b b' n (j + 4) hag (by omega)
        have e' : b' + ((j + 4 : Nat) : Int) = b' + (j : Int) + 4 := by
          push_cast; omega
        have e : b + ((j + 4 : Nat) : Int) = b + (j : Int) + 4 := by
          push_cast; omega
        rw [e', e] at this
        exact this
      rw [struct_capacity_some _ _ _ hsome', struct_capacity_some _ _ _ hsome,
        struct_usedSpace_some _ _ _ hsome', struct_usedSpace_some _ _ _ hsome,
        hssagree, hacagree, hauagree]
      exact ⟨rfl, rfl⟩

/-- C1 counterexample: a 4-byte OffsetPtr slot holding offset 8, byte-copied
from base 0 to base 100; `OffsetPtr::get` returns address 8 on the original
and address 108 on the copy — not bit-identical. -/
theorem relocation_get_counterexample :
    Agrees (write32 memZero 0 8) (write32 memZero 100 8) 0 100 4 ∧
    OffsetPtr.get (write32 memZero 100 8) 100 ≠
      OffsetPtr.get (write32 memZero 0 8) 0 := by
  constructor
  · unfold Agrees
    decide
  · decide

/-- Witness for `relocation_reads`: on the concrete copied slot, `get` at the
new base returns the rebased pointer. -/
theorem relocation_reads_witness :
    OffsetPtr.get (write32 memZero 100 8) (100 + ((0 : Nat) : Int)) =
      (OffsetPtr.get (write32 memZero 0 8) (0 + ((0 : Nat) : Int))).map
        (fun a => a + (100 - 0)) :=
  (relocation_reads (write32 memZero 0 8) (write32 memZero 100 8) 0 100 4
    (by unfold Agrees; decide)).1 0 (by norm_num)

/-- C6 (amended): a String whose OffsetRef is null reports `length() = 0`,
`empty() = true` and `c_str()` returns the empty literal; but `operator==`
compares it equal only to a null pointer (or null String) — comparison with
the empty C string `""` and with a String storing `""` returns **false**,
because the pointer comparison `data.get() == s` fails and `data` short-
circuits the `strcmp` branch. -/
theorem string_null_state (m : Mem) (slot : Int) (fuel : Nat)
    (hnull : OffsetPtr.get m slot = none) :
    String.length m slot fuel = 0 ∧
    String.empty m slot = true ∧
    String.cStr m slot fuel = [] ∧
    (∀ p : Option Int, String.eqC m slot p fuel = true ↔ p = none) := by
  refine ⟨?_, ?_, ?_, ?_⟩
  · unfold String.length
    rw [hnull]
  · unfold String.empty
    rw [hnull]
  · unfold String.cStr
    rw [hnull]
  · intro p
    unfold String.eqC
    rw [hnull]
    cases p with
    | none => simp
    | some b => simp

/-- C6 counterexample: with a null String at slot 0 and the empty C string at
address 8, `operator== ""` yields false, and so does comparison with a String
(at slot 4) that stores the empty string — though the latter really is empty. -/
theorem string_null_eq_empty_counterexample :
    read8 (OffsetPtr.store memZero 4 (some 8)) 8 = 0 ∧
    String.eqC (OffsetPtr.store memZero 4 (some 8)) 0 (some 8) 10 = false ∧
    String.eqC (OffsetPtr.store memZero 4 (some 8)) 0
      (OffsetPtr.get (OffsetPtr.store memZero 4 (some 8)) 4) 10 = false ∧
    String.empty (OffsetPtr.store memZero 4 (some 8)) 4 = true := by
  refine ⟨by decide, by decide, by decide, by decide⟩

/-- Witness for `string_null_state` on the all-zero memory (null data slot). -/
theorem string_null_state_witness :
    String.length memZero 0 10 = 0 ∧ String.empty memZero 0 = true := by
  have h := string_null_state memZero 0 10 (by decide)
  exact ⟨h.1, h.2.1⟩

-- Map lookup lemmas

theorem map_find_le {K V : Type} (beq : K → K → Bool) (key : K) :
    ∀ pairs : List (K × V), Map.find beq key pairs ≤ pairs.length := by
  intro pairs
  induction pairs with
  | nil => simp [Map.find]
  | cons p rest ih =>
    unfold Map.find
    cases hb : beq p.1 key
    · simp only [hb, Bool.false_eq_true, if_false, List.length_cons]
      omega
    · simp [hb]

theorem map_find_hit {K V : Type} (beq : K → K → Bool) (key : K) :
    ∀ (pairs : List (K × V)) (q : K × V),
      pairs[Map.find beq key pairs]? = some q → beq q.1 key = true := by
  intro pairs
  induction pairs with
  | nil => intro q h; simp [Map.find] at h
  | cons p rest ih =>
    intro q h
    unfold Map.find at h
    cases hb : beq p.1 key
    · rw [hb] at h
      simp only [Bool.false_eq_true, if_false, List.getElem?_cons_succ] at h
      exact ih q h
    · rw [hb] at h
      simp only [if_true, List.getElem?_cons_zero, Option.some.injEq] at h
      rw [← h]
      exact hb

theorem map_find_first {K V : Type} (beq : K → K → Bool) (key : K) :
    ∀ (pairs : List (K × V)) (i : Nat), i < Map.find beq key pairs →
      ∀ q : K × V, pairs[i]? = some q → beq q.1 key = false := by
  intro pairs
  induction pairs with
  | nil => intro i hi q h; simp at h
  | cons p rest ih =>
    intro i hi q h
    unfold Map.find at hi
    cases hb : beq p.1 key
    · rw [hb] at hi
      simp only [Bool.false_eq_true, if_false] at hi
      match i with
      | 0 =>
        simp only [List.getElem?_cons_zero, Option.some.injEq] at h
        rw [← h]
        exact hb
      | i' + 1 =>
        simp only [List.getElem?_cons_succ] at h
        exact ih i' (by omega) q h
    · rw [hb] at hi
      simp at hi

theorem map_find_eq_length_iff {K V : Type} (beq : K → K → Bool) (key : K) :
    ∀ pairs : List (K × V),
      Map.find beq key pairs = pairs.length ↔
        ∀ q ∈ pairs, beq q.1 key = false := by
  intro pairs
  induction pairs with
  | nil => simp [Map.find]
  | cons p rest ih =>
    unfold Map.find
    cases hb : beq p.1 key
    · simp only [hb, Bool.false_eq_true, if_false, List.length_cons,
        Nat.add_right_cancel_iff, List.forall_mem_cons]
      rw [ih]
      simp [hb]
    · simp only [hb, if_true, List.length_cons, List.forall_mem_cons]
      constructor
      · intro h
        omega
      · intro h
        exact absurd h.1 (by simp)

-- linked-list heap lemmas

theorem getN_set_self (s : LState) (i : Nat) (nd : LNode)
    (h : i < s.nodes.length) : LList.getN (LList.setN s i nd) i = nd := by
  simp [LList.getN, LList.setN, List.getD_eq_getElem?_getD,
    List.getElem?_set_eq h]

theorem getN_set_ne (s : LState) (i k : Nat) (nd : LNode) (h : k ≠ i) :
    LList.getN (LList.setN s i nd) k = LList.getN s k := by
  simp [LList.getN, LList.setN, List.getD_eq_getElem?_getD,
    List.getElem?_set_ne (Ne.symm h)]

theorem length_setN (s : LState) (i : Nat) (nd : LNode) :
    (LList.setN s i nd).nodes.length = s.nodes.length := by
  simp [LList.setN]

theorem inChain_trans (s : LState) (i j k : Nat)
    (h1 : LList.InChain s i j) (h2 : LList.InChain s j k) :
    LList.InChain s i k := by
  induction h1 with
  | here _ => exact h2
  | there a b c hnext _ ih => exact LList.InChain.there a b k hnext (ih h2)

theorem inChain_eq_on (s s' : LState) (i k : Nat)
    (hder : LList.InChain s' i k)
    (h : ∀ x, LList.InChain s i x → LList.getN s' x = LList.getN s x) :
    LList.InChain s i k := by
  induction hder with
  | here a => exact LList.InChain.here a
  | there a b c hnext hsub ih =>
    have ha := h a (LList.InChain.here a)
    rw [ha] at hnext
    exact LList.InChain.there a b c hnext
      (ih (fun x hx => h x (LList.InChain.there a b x hnext hx)))

theorem wfNode_lt (s : LState) (i : Nat) (h : LList.WfNode s i) :
    i < s.nodes.length := by
  cases h with
  | nil _ h1 _ _ _ => exact h1
  | last _ h1 _ _ _ => exact h1
  | cons _ _ h1 _ _ _ _ => exact h1

theorem wfNode_eq_on (s s' : LState) (i : Nat) (h : LList.WfNode s i)
    (heq : ∀ k, LList.InChain s i k →
      LList.getN s' k = LList.getN s k ∧ k < s'.nodes.length) :
    LList.WfNode s' i := by
  induction h with
  | nil a h1 h2 h3 h4 =>
    obtain ⟨he, hl⟩ := heq a (LList.InChain.here a)
    exact LList.WfNode.nil a hl (by rw [he]; exact h2) (by rw [he]; exact h3)
      (by rw [he]; exact h4)
  | last a h1 h2 h3 h4 =>
    obtain ⟨he, hl⟩ := heq a (LList.InChain.here a)
    exact LList.WfNode.last a hl (by rw [he]; exact h2) (by rw [he]; exact h3)
      (by rw [he]; exact h4)
  | cons a b h1 h2 h3 h4 h5 ih =>
    obtain ⟨he, hl⟩ := heq a (LList.InChain.here a)
    obtain ⟨heb, _⟩ := heq b (LList.InChain.there a b b h2 (LList.InChain.here b))
    refine LList.WfNode.cons a b hl (by rw [he]; exact h2) (by rw [he]; exact h3)
      (by rw [he, heb]; exact h4) ?_
    exact ih (fun k hk => heq k (LList.InChain.there a b k h2 hk))

theorem wfNode_inChain_wf (s : LState) (i k : Nat) (hwf : LList.WfNode s i)
    (hc : LList.InChain s i k) : LList.WfNode s k := by
  induction hc with
  | here a => exact hwf
  | there a b c hnext hsub ih =>
    cases hwf with
    | nil _ _ _ _ h4 => rw [h4] at hnext; cases hnext
    | last _ _ _ _ h4 => rw [h4] at hnext; cases hnext
    | cons _ b' _ h2 _ _ h5 =>
      rw [h2] at hnext
      injection hnext with hb
      subst hb
      exact ih h5

theorem wfNode_inChain_lt (s : LState) (i k : Nat) (hwf : LList.WfNode s i)
    (hc : LList.InChain s i k) : k < s.nodes.length :=
  wfNode_lt s k (wfNode_inChain_wf s i k hwf hc)

theorem wfNode_inChain_size_le (s : LState) (i k : Nat)
    (hwf : LList.WfNode s i) (hc : LList.InChain s i k) :
    (LList.getN s k).size_ ≤ (LList.getN s i).size_ := by
  induction hc with
  | here a => exact le_refl _
  | there a b c hnext hsub ih =>
    cases hwf with
    | nil _ _ _ _ h4 => rw [h4] at hnext; cases hnext
    | last _ _ _ _ h4 => rw [h4] at hnext; cases hnext
    | cons _ b' _ h2 _ h4 h5 =>
      rw [h2] at hnext
      injection hnext with hb
      subst hb
      have := ih h5
      omega

theorem wfNode_not_inChain_next (s : LState) (i nx : Nat)
    (hwf : LList.WfNode s nx)
    (hsz : (LList.getN s nx).size_ < (LList.getN s i).size_) :
    ¬ LList.InChain s nx i := by
  intro hc
  have := wfNode_inChain_size_le s nx i hwf hc
  omega

theorem allocT_cases (sizeT : Nat) (st : LState) :
    LList.allocT sizeT st = (none, st) ∨
    LList.allocT sizeT st =
      (some st.fresh,
        { st with free := st.free - sizeT, fresh := st.fresh + 1 }) := by
  unfold LList.allocT
  split
  · exact Or.inl rfl
  · exact Or.inr rfl

theorem allocNode_cases (sizeNode : Nat) (st : LState) :
    LList.allocNode sizeNode st = (none, st) ∨
    LList.allocNode sizeNode st =
      (some st.nodes.length,
        { st with free := st.free - sizeNode,
                  nodes := st.nodes ++ [⟨0, none, none⟩] }) := by
  unfold LList.allocNode
  split
  · exact Or.inl rfl
  · exact Or.inr rfl

theorem getN_eq_of_nodes (s s' : LState) (k : Nat) (h : s'.nodes = s.nodes) :
    LList.getN s' k = LList.getN s k := by
  unfold LList.getN
  rw [h]

theorem getN_concat_lt (s s' : LState) (nd : LNode) (k : Nat)
    (h : s'.nodes = s.nodes ++ [nd]) (hk : k < s.nodes.length) :
    LList.getN s' k = LList.getN s k := by
  unfold LList.getN
  rw [h]
  simp [List.getD_eq_getElem?_getD, List.getElem?_append_left hk]

theorem getN_concat_len (s s' : LState) (nd : LNode)
    (h : s'.nodes = s.nodes ++ [nd]) :
    LList.getN s' s.nodes.length = nd := by
  unfold LList.getN
  rw [h]
  simp [List.getD_eq_getElem?_getD, List.getElem?_concat_length]

theorem createList_allocT_fail (sizeT sizeNode m : Nat) (st : LState)
    (hA : LList.allocT sizeT st = (none, st)) :
    LList.createList sizeT sizeNode (m + 1) st = (⟨0, none, none⟩, st) := by
  conv_lhs => unfold LList.createList
  simp only [hA]

theorem createList_one (sizeT sizeNode : Nat) (st st1 : LState) (v : Nat)
    (hA : LList.allocT sizeT st = (some v, st1)) :
    LList.createList sizeT sizeNode 1 st = (⟨1, some v, none⟩, st1) := by
  conv_lhs => unfold LList.createList
  simp only [hA]
  simp

theorem createList_allocNode_fail (sizeT sizeNode m : Nat) (st st1 : LState)
    (v : Nat) (hm : 0 < m) (hA : LList.allocT sizeT st = (some v, st1))
    (hB : LList.allocNode sizeNode st1 = (none, st1)) :
    LList.createList sizeT sizeNode (m + 1) st = (⟨0, some v, none⟩, st1) := by
  conv_lhs => unfold LList.createList
  simp only [hA, hB]
  rw [if_neg (by omega)]

theorem createList_rec (sizeT sizeNode m : Nat) (st st1 st2 : LState)
    (v nx : Nat) (hm : 0 < m) (hA : LList.allocT sizeT st = (some v, st1))
    (hB : LList.allocNode sizeNode st1 = (some nx, st2)) :
    LList.createList sizeT sizeNode (m + 1) st =
      (if (LList.getN
            (LList.setN (LList.createList sizeT sizeNode m st2).2 nx
              ⟨(LList.createList sizeT sizeNode m st2).1.size,
               (LList.createList sizeT sizeNode m st2).1.value,
               (LList.createList sizeT sizeNode m st2).1.next⟩) nx).size_ = 0
       then
        (⟨0, some v, some nx⟩,
          LList.setN (LList.createList sizeT sizeNode m st2).2 nx
            ⟨(LList.createList sizeT sizeNode m st2).1.size,
             (LList.createList sizeT sizeNode m st2).1.value,
             (LList.createList sizeT sizeNode m st2).1.next⟩)
       else
        (⟨m + 1, some v, some nx⟩,
          LList.setN (LList.createList sizeT sizeNode m st2).2 nx
            ⟨(LList.createList sizeT sizeNode m st2).1.size,
             (LList.createList sizeT sizeNode m st2).1.value,
             (LList.createList sizeT sizeNode m st2).1.next⟩)) := by
  conv_lhs => unfold LList.createList
  simp only [hA, hB]
  rw [if_neg (by omega)]

/-- `Struct::CreateList` leaves all pre-existing nodes untouched, only grows
the heap, returns a descriptor sized 0 (failure) or as requested, and on full
success the descriptor's chain is made of fresh, well-formed nodes. -/
theorem createList_spec (sizeT sizeNode : Nat) : ∀ (n : Nat) (st : LState),
    st.nodes.length ≤ (LList.createList sizeT sizeNode n st).2.nodes.length ∧
    (∀ k, k < st.nodes.length →
      LList.getN (LList.createList sizeT sizeNode n st).2 k = LList.getN st k) ∧
    ((LList.createList sizeT sizeNode n st).1.size = 0 ∨
      (LList.createList sizeT sizeNode n st).1.size = n) ∧
    ((LList.createList sizeT sizeNode n st).1.size = n →
      (n = 0 → (LList.createList sizeT sizeNode n st).1 = ⟨0, none, none⟩) ∧
      (0 < n →
        (LList.createList sizeT sizeNode n st).1.value ≠ none ∧
        (((LList.createList sizeT sizeNode n st).1.next = none ∧ n = 1) ∨
          (∃ j, (LList.createList sizeT sizeNode n st).1.next = some j ∧
            st.nodes.length ≤ j ∧
            (LList.getN (LList.createList sizeT sizeNode n st).2 j).size_ =
              n - 1 ∧
            LList.WfNode (LList.createList sizeT sizeNode n st).2 j ∧
            (∀ k, LList.InChain (LList.createList sizeT sizeNode n st).2 j k →
              st.nodes.length ≤ k))))) := by
  intro n
  induction n with
  | zero =>
    intro st
    exact ⟨le_refl _, fun k _ => rfl, Or.inl rfl,
      fun _ => ⟨fun _ => rfl, fun h0 => absurd h0 (by omega)⟩⟩
  | succ m ih =>
    intro st
    rcases allocT_cases sizeT st with hA | hA
    · rw [createList_allocT_fail sizeT sizeNode m st hA]
      exact ⟨le_refl _, fun k _ => rfl, Or.inl rfl,
        fun hsz => absurd hsz (by simp)⟩
    · by_cases hm : m = 0
      · subst hm
        rw [createList_one sizeT sizeNode st _ st.fresh hA]
        refine ⟨le_refl _, fun k _ => rfl, Or.inr rfl, fun _ => ⟨?_, ?_⟩⟩
        · intro h0
          cases h0
        · intro _
          exact ⟨by simp, Or.inl ⟨rfl, rfl⟩⟩
      · rcases allocNode_cases sizeNode
          { st with free := st.free - sizeT, fresh := st.fresh + 1 } with hB | hB
        · rw [createList_allocNode_fail sizeT sizeNode m st _ st.fresh
            (by omega) hA hB]
          exact ⟨le_refl _, fun k _ => rfl, Or.inl rfl,
            fun hsz => absurd hsz (by simp)⟩
        · have hB' : LList.allocNode sizeNode
              ({ st with free := st.free - sizeT, fresh := st.fresh + 1 }) =
              (some st.nodes.length,
                (⟨st.free - sizeT - sizeNode, st.nodes ++ [⟨0, none, none⟩],
                  st.fresh + 1⟩ : LState)) := hB
          set st2 : LState :=
            (⟨st.free - sizeT - sizeNode, st.nodes ++ [⟨0, none, none⟩],
              st.fresh + 1⟩ : LState) with hst2
          have hrec := createList_rec sizeT sizeNode m st _ st2 st.fresh
            st.nodes.length (by omega) hA hB'
          have hlen2 : st2.nodes.length = st.nodes.length + 1 := by
            rw [hst2]
            simp
          have hold2 : ∀ k, k < st.nodes.length →
              LList.getN st2 k = LList.getN st k := by
            intro k hk
            exact getN_concat_lt st st2 _ k rfl hk
          obtain ⟨ihlen, ihold, ihsz, ihsucc⟩ := ih st2
          set r := LList.createList sizeT sizeNode m st2 with hr
          have hnxlt : st.nodes.length < r.2.nodes.length := by omega
          set st4 := LList.setN r.2 st.nodes.length
            ⟨r.1.size, r.1.value, r.1.next⟩ with hst4
          have hget4 : LList.getN st4 st.nodes.length =
              ⟨r.1.size, r.1.value, r.1.next⟩ :=
            getN_set_self r.2 st.nodes.length _ hnxlt
          have hlen4 : st4.nodes.length = r.2.nodes.length :=
            length_setN r.2 st.nodes.length _
          have hold4 : ∀ k, k < st.nodes.length →
              LList.getN st4 k = LList.getN st k := by
            intro k hk
            rw [hst4, getN_set_ne r.2 st.nodes.length k _ (by omega)]
            rw [ihold k (by omega), hold2 k hk]
          by_cases hsz0 : r.1.size = 0
          · rw [hrec, if_pos (by rw [hget4, hsz0])]
            refine ⟨?_, fun k hk => hold4 k hk, Or.inl rfl,
              fun hsz => absurd hsz (by simp)⟩
            show st.nodes.length ≤ st4.nodes.length
            omega
          · have hszm : r.1.size = m := by
              rcases ihsz with h | h
              · exact absurd h hsz0
              · exact h
            have hcond : ¬((LList.getN st4 st.nodes.length).size_ = 0) := by
              rw [hget4]
              show ¬(r.1.size = 0)
              exact hsz0
            rw [hrec, if_neg hcond]
            refine ⟨?_, fun k hk => hold4 k hk, Or.inr rfl,
              fun _ => ⟨(by intro h0; exact absurd h0 (by omega)),
                fun _ => ⟨(by simp), ?_⟩⟩⟩
            · show st.nodes.length ≤ st4.nodes.length
              omega
            right
            refine ⟨st.nodes.length, rfl, le_refl _, ?_, ?_, ?_⟩
            · rw [hget4, hszm]
              simp
            · obtain ⟨hval, hdisj⟩ := (ihsucc hszm).2 (by omega)
              rcases hdisj with ⟨hnone, hm1⟩ | ⟨j2, hj2, hj2ge, hj2sz, hj2wf, hj2ch⟩
              · exact LList.WfNode.last st.nodes.length
                  (by show st.nodes.length < st4.nodes.length; omega)
                  (by rw [hget4, hszm, hm1]) (by rw [hget4]; exact hval)
                  (by rw [hget4, hnone])
              · have hj2ne : j2 ≠ st.nodes.length := by omega
                refine LList.WfNode.cons st.nodes.length j2
                  (by show st.nodes.length < st4.nodes.length; omega)
                  (by rw [hget4, hj2]) (by rw [hget4]; exact hval) ?_ ?_
                · rw [hget4, hst4, getN_set_ne r.2 st.nodes.length j2 _ hj2ne,
                    hj2sz, hszm]
                  show m = m - 1 + 1
                  omega
                · refine wfNode_eq_on r.2 st4 j2 hj2wf ?_
                  intro k hk
                  have hkge := hj2ch k hk
                  refine ⟨?_, ?_⟩
                  · rw [hst4, getN_set_ne r.2 st.nodes.length k _ (by omega)]
                  · rw [hlen4]
                    exact wfNode_inChain_lt r.2 j2 k hj2wf hk
            · intro k hk
              rcases hk with ⟨_⟩ | ⟨_, _, _, hnext, hsub⟩
              · exact le_refl _
              · have hget4n : (LList.getN st4 st.nodes.length).next =
                    r.1.next := by
                  rw [hget4]
                rw [hget4n] at hnext
                obtain ⟨hval, hdisj⟩ := (ihsucc hszm).2 (by omega)
                rcases hdisj with ⟨hnone, _⟩ |
                  ⟨j2, hj2, hj2ge, hj2sz, hj2wf, hj2ch⟩
                · rw [hnone] at hnext
                  cases hnext
                · rw [hj2] at hnext
                  injection hnext with hb
                  rw [← hb] at hsub
                  have hback : LList.InChain r.2 j2 k := by
                    refine inChain_eq_on r.2 st4 j2 k hsub ?_
                    intro x hx
                    have := hj2ch x hx
                    rw [hst4, getN_set_ne r.2 st.nodes.length x _ (by omega)]
                  have := hj2ch k hback
                  omega

theorem append_succ_eq (sizeNode fuel : Nat) (st : LState) (i : Nat)
    (c : LContent) :
    LList.append sizeNode (fuel + 1) st i c =
      (if (LList.getN st i).size_ = 0 then
        (true, LList.setN st i ⟨c.size, c.value, c.next⟩)
      else
        match (LList.getN st i).next with
        | some nx =>
          if (LList.append sizeNode fuel st nx c).1 then
            (true, LList.setN (LList.append sizeNode fuel st nx c).2 i
              { LList.getN (LList.append sizeNode fuel st nx c).2 i with
                size_ :=
                  (LList.getN (LList.append sizeNode fuel st nx c).2 nx).size_
                    + 1 })
          else (false, (LList.append sizeNode fuel st nx c).2)
        | none =>
          match LList.allocNode sizeNode st with
          | (none, st1) => (false, st1)
          | (some nx, st1) =>
            if (LList.append sizeNode fuel
                (LList.setN st1 i { LList.getN st i with next := some nx })
                nx c).1 then
              (true,
                LList.setN
                  (LList.append sizeNode fuel
                    (LList.setN st1 i
                      { LList.getN st i with next := some nx }) nx c).2 i
                  { LList.getN
                      (LList.append sizeNode fuel
                        (LList.setN st1 i
                          { LList.getN st i with next := some nx }) nx c).2
                      i with
                    size_ :=
                      (LList.getN
                        (LList.append sizeNode fuel
                          (LList.setN st1 i
                            { LList.getN st i with next := some nx }) nx c).2
                        nx).size_ + 1 })
            else
              (false,
                (LList.append sizeNode fuel
                  (LList.setN st1 i { LList.getN st i with next := some nx })
                  nx c).2)) := rfl

theorem contentSep_step (s : LState) (i j : Nat) (c : LContent)
    (hsep : LList.ContentSep s i c) (hnext : (LList.getN s i).next = some j) :
    LList.ContentSep s j c := by
  rcases hsep with h | ⟨h1, h2, h3 | ⟨jc, hc, hsz, hwf, hdisj⟩⟩
  · exact Or.inl h
  · exact Or.inr ⟨h1, h2, Or.inl h3⟩
  · refine Or.inr ⟨h1, h2, Or.inr ⟨jc, hc, hsz, hwf, ?_⟩⟩
    intro k hk hjk
    exact hdisj k hk (LList.InChain.there i j k hnext hjk)

theorem contentSep_not_chain (s : LState) (i jc : Nat) (c : LContent)
    (hsep : LList.ContentSep s i c) (hc : c.next = some jc) :
    ∀ x, LList.InChain s jc x → ¬ LList.InChain s i x := by
  rcases hsep with ⟨_, _, h3⟩ | ⟨_, _, ⟨h3, _⟩ | ⟨jc', hc', _, _, hdisj⟩⟩
  · rw [h3] at hc
    cases hc
  · rw [h3] at hc
    cases hc
  · rw [hc'] at hc
    injection hc with he
    subst he
    exact hdisj

theorem contentSep_wf (s : LState) (i jc : Nat) (c : LContent)
    (hsep : LList.ContentSep s i c) (hc : c.next = some jc) :
    LList.WfNode s jc ∧ (LList.getN s jc).size_ + 1 = c.size := by
  rcases hsep with ⟨_, _, h3⟩ | ⟨_, _, ⟨h3, _⟩ | ⟨jc', hc', hsz, hwf, _⟩⟩
  · rw [h3] at hc
    cases hc
  · rw [h3] at hc
    cases hc
  · rw [hc'] at hc
    injection hc with he
    subst he
    exact ⟨hwf, hsz⟩

/-- `List::append(s, c)` with enough fuel for its well-formed chain: on
success the chain stays well-formed and the head's size grows by exactly
`c.size`; on failure (node allocation failed) the state is unchanged. -/
theorem append_wf (sizeNode : Nat) : ∀ (fuel : Nat) (st : LState) (i : Nat)
    (c : LContent), LList.WfNode st i → LList.ContentSep st i c →
    (LList.getN st i).size_ + 2 ≤ fuel →
    ((LList.append sizeNode fuel st i c).1 = true →
      LList.WfNode (LList.append sizeNode fuel st i c).2 i ∧
      (LList.getN (LList.append sizeNode fuel st i c).2 i).size_ =
        (LList.getN st i).size_ + c.size ∧
      st.nodes.length ≤ (LList.append sizeNode fuel st i c).2.nodes.length ∧
      (∀ k, k < st.nodes.length → ¬ LList.InChain st i k →
        LList.getN (LList.append sizeNode fuel st i c).2 k =
          LList.getN st k) ∧
      (∀ k, LList.InChain (LList.append sizeNode fuel st i c).2 i k →
        LList.InChain st i k ∨ st.nodes.length ≤ k ∨
        (∃ j, c.next = some j ∧ LList.InChain st j k))) ∧
    ((LList.append sizeNode fuel st i c).1 = false →
      (LList.append sizeNode fuel st i c).2 = st) := by
  intro fuel
  induction fuel with
  | zero =>
    intro st i c _ _ hfuel
    exact absurd hfuel (by omega)
  | succ f ih =>
    intro st i c hwf hsep hfuel
    by_cases hsz : (LList.getN st i).size_ = 0
    · rw [append_succ_eq, if_pos hsz]
      refine ⟨?_, by intro hfalse; cases hfalse⟩
      intro _
      have hilen : i < st.nodes.length := wfNode_lt st i hwf
      have hgi : LList.getN (LList.setN st i ⟨c.size, c.value, c.next⟩) i =
          ⟨c.size, c.value, c.next⟩ := getN_set_self st i _ hilen
      refine ⟨?_, ?_, ?_, ?_, ?_⟩
      · rcases hsep with ⟨h1, h2, h3⟩ | ⟨h1, h2, ⟨h3, h4⟩ |
          ⟨jc, hc, hjsz, hjwf, hdisj⟩⟩
        · refine LList.WfNode.nil i (by rw [length_setN]; exact hilen) ?_ ?_ ?_
          · rw [hgi]; exact h1
          · rw [hgi]; exact h2
          · rw [hgi]; exact h3
        · refine LList.WfNode.last i (by rw [length_setN]; exact hilen) ?_ ?_ ?_
          · rw [hgi]; exact h4
          · rw [hgi]; exact h2
          · rw [hgi]; exact h3
        · have hjci : jc ≠ i := by
            intro he
            exact hdisj jc (LList.InChain.here jc)
              (by rw [he]; exact LList.InChain.here i)
          refine LList.WfNode.cons i jc (by rw [length_setN]; exact hilen)
            (by rw [hgi]; exact hc) (by rw [hgi]; exact h2) ?_ ?_
          · rw [hgi, getN_set_ne st i jc _ hjci]
            show c.size = (LList.getN st jc).size_ + 1
            omega
          · refine wfNode_eq_on st _ jc hjwf ?_
            intro k hk
            have hki : k ≠ i := by
              intro he
              exact hdisj k hk (by rw [he]; exact LList.InChain.here i)
            exact ⟨getN_set_ne st i k _ hki,
              by rw [length_setN]; exact wfNode_inChain_lt st jc k hjwf hk⟩
      · rw [hgi]
        show c.size = (LList.getN st i).size_ + c.size
        omega
      · rw [length_setN]
      · intro k _ hkch
        have hki : k ≠ i := by
          intro he
          exact hkch (by rw [he]; exact LList.InChain.here i)
        exact getN_set_ne st i k _ hki
      · intro k hk
        rcases hk with ⟨_⟩ | ⟨_, _, _, hnext, hsub⟩
        · exact Or.inl (LList.InChain.here i)
        · rename_i jv
          rw [hgi] at hnext
          have hcnx : c.next = some jv := hnext
          rcases hsep with ⟨_, _, h3⟩ | ⟨_, _, ⟨h3, _⟩ |
            ⟨jc, hc, hjsz, hjwf, hdisj⟩⟩
          · rw [h3] at hcnx; cases hcnx
          · rw [h3] at hcnx; cases hcnx
          · rw [hc] at hcnx
            injection hcnx with he
            rw [← he] at hsub
            right; right
            refine ⟨jc, hc, ?_⟩
            refine inChain_eq_on st _ jc k hsub ?_
            intro x hx
            have hxi : x ≠ i := by
              intro hxe
              exact hdisj x hx (by rw [hxe]; exact LList.InChain.here i)
            exact getN_set_ne st i x _ hxi
    · rcases hwf with ⟨_, h1, h2, h3, h4⟩ | ⟨_, h1, h2, h3, h4⟩ |
        ⟨_, j, h1, h2, h3, h4, h5⟩
      · exact absurd h2 hsz
      · -- last node: size 1, next null: allocate a fresh node and append there
        rw [append_succ_eq, if_neg hsz]
        rcases allocNode_cases sizeNode st with hB | hB
        · simp only [h4, hB]
          exact ⟨(by intro hfalse; cases hfalse), fun _ => trivial⟩
        · have hB' : LList.allocNode sizeNode st =
              (some st.nodes.length,
                (⟨st.free - sizeNode, st.nodes ++ [⟨0, none, none⟩],
                  st.fresh⟩ : LState)) := hB
          set st1 : LState :=
            (⟨st.free - sizeNode, st.nodes ++ [⟨0, none, none⟩],
              st.fresh⟩ : LState) with hst1
          set L := st.nodes.length with hL
          have hiL : i ≠ L := by omega
          set st2 := LList.setN st1 i
            { LList.getN st i with next := some L } with hst2
          have hlen1 : st1.nodes.length = L + 1 := by
            rw [hst1]; simp
          have hlen2 : st2.nodes.length = L + 1 := by
            rw [hst2, length_setN, hlen1]
          have hg2L : LList.getN st2 L = ⟨0, none, none⟩ := by
            rw [hst2, getN_set_ne st1 i L _ (by omega)]
            exact getN_concat_len st st1 _ rfl
          have hg2i : LList.getN st2 i =
              { LList.getN st i with next := some L } := by
            rw [hst2]
            exact getN_set_self st1 i _ (by omega)
          have hg2old : ∀ k, k < L → k ≠ i → LList.getN st2 k =
              LList.getN st k := by
            intro k hk hki
            rw [hst2, getN_set_ne st1 i k _ hki]
            exact getN_concat_lt st st1 _ k rfl hk
          obtain ⟨f', rfl⟩ : ∃ f', f = f' + 1 := ⟨f - 1, by omega⟩
          have hinner : LList.append sizeNode (f' + 1) st2 L c =
              (true, LList.setN st2 L ⟨c.size, c.value, c.next⟩) := by
            rw [append_succ_eq, if_pos (by rw [hg2L])]
          simp only [h4, hB', hinner]
          rw [if_pos trivial]
          dsimp only
          set st3 := LList.setN st2 L ⟨c.size, c.value, c.next⟩ with hst3
          have hg3L : LList.getN st3 L = ⟨c.size, c.value, c.next⟩ := by
            rw [hst3]
            exact getN_set_self st2 L _ (by omega)
          have hg3i : LList.getN st3 i =
              { LList.getN st i with next := some L } := by
            rw [hst3, getN_set_ne st2 L i _ (by omega), hg2i]
          have hlen3 : st3.nodes.length = L + 1 := by
            rw [hst3, length_setN, hlen2]
          refine ⟨?_, by intro hfalse; cases hfalse⟩
          intro _
          set st4 := LList.setN st3 i
            { LList.getN st3 i with size_ := (LList.getN st3 L).size_ + 1 }
            with hst4
          have hg4i : LList.getN st4 i =
              { LList.getN st3 i with size_ := (LList.getN st3 L).size_ + 1 } := by
            rw [hst4]
            exact getN_set_self st3 i _ (by omega)
          have hg4L : LList.getN st4 L = ⟨c.size, c.value, c.next⟩ := by
            rw [hst4, getN_set_ne st3 i L _ (by omega), hg3L]
          have hlen4 : st4.nodes.length = L + 1 := by
            rw [hst4, length_setN, hlen3]
          have hg4old : ∀ k, k < L → k ≠ i → LList.getN st4 k =
              LList.getN st k := by
            intro k hk hki
            rw [hst4, getN_set_ne st3 i k _ hki, hst3,
              getN_set_ne st2 L k _ (by omega)]
            exact hg2old k hk hki
          have hg4inext : (LList.getN st4 i).next = some L := by
            rw [hg4i, hg3i]
          have hg4isz : (LList.getN st4 i).size_ = c.size + 1 := by
            rw [hg4i, hg3L]
          have hg4ival : (LList.getN st4 i).value = (LList.getN st i).value := by
            rw [hg4i, hg3i]
          refine ⟨?_, ?_, ?_, ?_, ?_⟩
          · refine LList.WfNode.cons i L (by omega) hg4inext
              (by rw [hg4ival]; exact h3) (by rw [hg4isz, hg4L]) ?_
            rcases hsep with ⟨hc1, hc2, hc3⟩ | ⟨hc1, hc2, ⟨hc3, hc4⟩ |
              ⟨jc, hc, hjsz, hjwf, hdisj⟩⟩
            · refine LList.WfNode.nil L (by omega) ?_ ?_ ?_
              · rw [hg4L]; exact hc1
              · rw [hg4L]; exact hc2
              · rw [hg4L]; exact hc3
            · refine LList.WfNode.last L (by omega) ?_ ?_ ?_
              · rw [hg4L]; exact hc4
              · rw [hg4L]; exact hc2
              · rw [hg4L]; exact hc3
            · have hjclt : jc < L := wfNode_lt st jc hjwf
              have hjci : jc ≠ i := by
                intro he
                exact hdisj jc (LList.InChain.here jc)
                  (by rw [he]; exact LList.InChain.here i)
              refine LList.WfNode.cons L jc (by omega)
                (by rw [hg4L]; exact hc) (by rw [hg4L]; exact hc2) ?_ ?_
              · rw [hg4L, hg4old jc hjclt hjci]
                show c.size = (LList.getN st jc).size_ + 1
                omega
              · refine wfNode_eq_on st st4 jc hjwf ?_
                intro k hk
                have hklt : k < L := wfNode_inChain_lt st jc k hjwf hk
                have hki : k ≠ i := by
                  intro he
                  exact hdisj k hk (by rw [he]; exact LList.InChain.here i)
                exact ⟨hg4old k hklt hki, by omega⟩
          · rw [hg4isz, h2]
            omega
          · omega
          · intro k hk hkch
            have hki : k ≠ i := by
              intro he
              exact hkch (by rw [he]; exact LList.InChain.here i)
            exact hg4old k hk hki
          · intro k hk
            rcases hk with ⟨_⟩ | ⟨_, _, _, hnext, hsub⟩
            · exact Or.inl (LList.InChain.here i)
            · rename_i jv
              rw [hg4inext] at hnext
              injection hnext with he
              rw [← he] at hsub
              rcases hsub with ⟨_⟩ | ⟨_, _, _, hnext2, hsub2⟩
              · right; left; omega
              · rename_i jv2
                rw [hg4L] at hnext2
                have hcnx : c.next = some jv2 := hnext2
                rcases hsep with ⟨_, _, hc3⟩ | ⟨_, _, ⟨hc3, _⟩ |
                  ⟨jc, hc, hjsz, hjwf, hdisj⟩⟩
                · rw [hc3] at hcnx; cases hcnx
                · rw [hc3] at hcnx; cases hcnx
                · rw [hc] at hcnx
                  injection hcnx with he2
                  rw [← he2] at hsub2
                  right; right
                  refine ⟨jc, hc, ?_⟩
                  refine inChain_eq_on st st4 jc k hsub2 ?_
                  intro x hx
                  have hxlt : x < L := wfNode_inChain_lt st jc x hjwf hx
                  have hxi : x ≠ i := by
                    intro hxe
                    exact hdisj x hx (by rw [hxe]; exact LList.InChain.here i)
                  exact hg4old x hxlt hxi
      · -- interior node: recurse into the existing next
        rw [append_succ_eq, if_neg hsz]
        simp only [h2]
        have hsepj : LList.ContentSep st j c := contentSep_step st i j c hsep h2
        have hij : ¬ LList.InChain st j i := by
          intro hc
          have := wfNode_inChain_size_le st j i h5 hc
          omega
        have hji : j ≠ i := by
          intro he
          exact hij (by rw [he]; exact LList.InChain.here i)
        have hih := ih st j c h5 hsepj (by omega)
        cases hok : (LList.append sizeNode f st j c).1 with
        | false =>
          simp only [hok, Bool.false_eq_true, if_false]
          refine ⟨(by intro hfalse; cases hfalse), fun _ => hih.2 hok⟩
        | true =>
          simp only [hok]
          rw [if_pos trivial]
          dsimp only
          obtain ⟨hwf', hsz', hlen', hpres', hch'⟩ := hih.1 hok
          have hinotin : ∀ k, LList.InChain (LList.append sizeNode f st j c).2
              j k → k ≠ i := by
            intro k hk he
            rcases hch' k hk with hxc | hxc | ⟨jc, hc, hxc⟩
            · rw [he] at hxc
              exact hij hxc
            · omega
            · rw [he] at hxc
              exact contentSep_not_chain st i jc c hsep hc i hxc
                (LList.InChain.here i)
          have higet : LList.getN (LList.append sizeNode f st j c).2 i =
              LList.getN st i := hpres' i h1 hij
          set r2 := (LList.append sizeNode f st j c).2 with hr2
          set st' := LList.setN r2 i
            { LList.getN r2 i with
              size_ := (LList.getN r2 j).size_ + 1 } with hst'
          have hg'i : LList.getN st' i =
              { LList.getN r2 i with
                size_ := (LList.getN r2 j).size_ + 1 } := by
            rw [hst']
            exact getN_set_self r2 i _ (by omega)
          have hg'j : LList.getN st' j = LList.getN r2 j := by
            rw [hst']
            exact getN_set_ne r2 i j _ hji
          refine ⟨?_, by intro hfalse; cases hfalse⟩
          intro _
          refine ⟨?_, ?_, ?_, ?_, ?_⟩
          · refine LList.WfNode.cons i j (by rw [length_setN]; omega) ?_ ?_ ?_ ?_
            · rw [hg'i, higet]
              exact h2
            · rw [hg'i, higet]
              exact h3
            · rw [hg'i, hg'j]
            · refine wfNode_eq_on r2 st' j hwf' ?_
              intro k hk
              refine ⟨?_, ?_⟩
              · rw [hst']
                exact getN_set_ne r2 i k _ (hinotin k hk)
              · rw [length_setN]
                exact wfNode_inChain_lt r2 j k hwf' hk
          · rw [hg'i, hsz', h4]
            show (LList.getN st j).size_ + c.size + 1 =
              (LList.getN st j).size_ + 1 + c.size
            omega
          · rw [length_setN]
            omega
          · intro k hk hkch
            have hki : k ≠ i := by
              intro he
              exact hkch (by rw [he]; exact LList.InChain.here i)
            have hkj : ¬ LList.InChain st j k := by
              intro hc
              exact hkch (LList.InChain.there i j k h2 hc)
            rw [hst', getN_set_ne r2 i k _ hki]
            exact hpres' k hk hkj
          · intro k hk
            rcases hk with ⟨_⟩ | ⟨_, _, _, hnext, hsub⟩
            · exact Or.inl (LList.InChain.here i)
            · rename_i jv
              rw [hg'i, higet] at hnext
              rw [h2] at hnext
              injection hnext with he
              rw [← he] at hsub
              have hsub' : LList.InChain r2 j k := by
                refine inChain_eq_on r2 st' j k hsub ?_
                intro x hx
                rw [hst']
                exact getN_set_ne r2 i x _ (hinotin x hx)
              rcases hch' k hsub' with hxc | hxc | ⟨jc, hc, hxc⟩
              · exact Or.inl (LList.InChain.there i j k h2 hxc)
              · exact Or.inr (Or.inl hxc)
              · exact Or.inr (Or.inr ⟨jc, hc, hxc⟩)

theorem resize_succ_eq (sizeT sizeNode fuel : Nat) (st : LState)
    (i newSize : Nat) :
    LList.resize sizeT sizeNode (fuel + 1) st i newSize =
      (if newSize = (LList.getN st i).size_ then (true, st)
       else if newSize > (LList.getN st i).size_ then
         LList.append sizeNode (fuel + 1)
           (LList.createList sizeT sizeNode
             (newSize - (LList.getN st i).size_) st).2 i
           (LList.createList sizeT sizeNode
             (newSize - (LList.getN st i).size_) st).1
       else if newSize = 0 then (true, LList.clear st i)
       else if newSize = 1 then
         (true, LList.setN st i
           { LList.getN st i with size_ := 1, next := none })
       else
         match (LList.getN st i).next with
         | none => (false, st)
         | some nx =>
           if (LList.resize sizeT sizeNode fuel st nx (newSize - 1)).1 then
             (true,
               LList.setN
                 (LList.resize sizeT sizeNode fuel st nx (newSize - 1)).2 i
                 { LList.getN
                     (LList.resize sizeT sizeNode fuel st nx (newSize - 1)).2
                     i with
                   size_ := newSize })
           else
             (false,
               (LList.resize sizeT sizeNode fuel st nx (newSize - 1)).2)) := rfl

/-- `List::resize` shrinking a well-formed chain always succeeds, resizes the
head to exactly `n`, modifies only chain nodes, and preserves well-formedness. -/
theorem resize_shrink_wf (sizeT sizeNode : Nat) : ∀ (fuel n : Nat)
    (st : LState) (i : Nat), LList.WfNode st i → 1 ≤ n →
    n < (LList.getN st i).size_ → n + 1 ≤ fuel →
    (LList.resize sizeT sizeNode fuel st i n).1 = true ∧
    LList.WfNode (LList.resize sizeT sizeNode fuel st i n).2 i ∧
    (LList.getN (LList.resize sizeT sizeNode fuel st i n).2 i).size_ = n ∧
    (∀ k, ¬ LList.InChain st i k →
      LList.getN (LList.resize sizeT sizeNode fuel st i n).2 k =
        LList.getN st k) ∧
    (LList.resize sizeT sizeNode fuel st i n).2.nodes.length =
      st.nodes.length ∧
    (∀ k, LList.InChain (LList.resize sizeT sizeNode fuel st i n).2 i k →
      LList.InChain st i k) := by
  intro fuel
  induction fuel with
  | zero =>
    intro n st i _ _ _ hf
    exact absurd hf (by omega)
  | succ f ih =>
    intro n st i hwf h1n hlt hfuel
    rw [resize_succ_eq]
    rw [if_neg (by omega), if_neg (by omega), if_neg (by omega)]
    have hilen : i < st.nodes.length := wfNode_lt st i hwf
    by_cases hn1 : n = 1
    · rw [if_pos hn1]
      rcases hwf with ⟨_, h1, h2, h3, h4⟩ | ⟨_, h1, h2, h3, h4⟩ |
        ⟨_, j, h1, h2, h3, h4, h5⟩
      · exact absurd hlt (by omega)
      · exact absurd hlt (by omega)
      · have hgi : LList.getN
            (LList.setN st i { LList.getN st i with size_ := 1, next := none })
            i = { LList.getN st i with size_ := 1, next := none } :=
          getN_set_self st i _ h1
        refine ⟨rfl, ?_, ?_, ?_, ?_, ?_⟩
        · refine LList.WfNode.last i (by rw [length_setN]; exact h1) ?_ ?_ ?_
          · rw [hgi]
          · rw [hgi]
            exact h3
          · rw [hgi]
        · rw [hgi, hn1]
        · intro k hkch
          have hki : k ≠ i := by
            intro he
            exact hkch (by rw [he]; exact LList.InChain.here i)
          exact getN_set_ne st i k _ hki
        · rw [length_setN]
        · intro k hk
          rcases hk with ⟨_⟩ | ⟨_, _, _, hnext, _⟩
          · exact LList.InChain.here i
          · rw [hgi] at hnext
            cases hnext
    · rw [if_neg hn1]
      rcases hwf with ⟨_, h1, h2, h3, h4⟩ | ⟨_, h1, h2, h3, h4⟩ |
        ⟨_, j, h1, h2, h3, h4, h5⟩
      · exact absurd hlt (by omega)
      · exact absurd hlt (by omega)
      · simp only [h2]
        have hih := ih (n - 1) st j h5 (by omega) (by omega) (by omega)
        obtain ⟨hok, hwf', hsz', hpres', hlen', hch'⟩ := hih
        simp only [hok]
        rw [if_pos trivial]
        dsimp only
        have hij : ¬ LList.InChain st j i := by
          intro hc
          have := wfNode_inChain_size_le st j i h5 hc
          omega
        have hji : j ≠ i := by
          intro he
          exact hij (by rw [he]; exact LList.InChain.here i)
        have hinotin : ∀ k,
            LList.InChain (LList.resize sizeT sizeNode f st j (n - 1)).2 j k →
            k ≠ i := by
          intro k hk he
          rw [he] at hk
          exact hij (hch' i hk)
        have higet : LList.getN
            (LList.resize sizeT sizeNode f st j (n - 1)).2 i =
            LList.getN st i := hpres' i hij
        have hgi : LList.getN
            (LList.setN (LList.resize sizeT sizeNode f st j (n - 1)).2 i
              { LList.getN (LList.resize sizeT sizeNode f st j (n - 1)).2 i
                with size_ := n }) i =
            { LList.getN (LList.resize sizeT sizeNode f st j (n - 1)).2 i
              with size_ := n } :=
          getN_set_self _ i _ (by omega)
        refine ⟨rfl, ?_, ?_, ?_, ?_, ?_⟩
        · refine LList.WfNode.cons i j (by rw [length_setN]; omega) ?_ ?_ ?_ ?_
          · rw [hgi, higet]
            exact h2
          · rw [hgi, higet]
            exact h3
          · rw [hgi, getN_set_ne _ i j _ hji, hsz']
            show n = n - 1 + 1
            omega
          · refine wfNode_eq_on _ _ j hwf' ?_
            intro k hk
            refine ⟨getN_set_ne _ i k _ (hinotin k hk), ?_⟩
            rw [length_setN]
            exact wfNode_inChain_lt _ j k hwf' hk
        · rw [hgi]
        · intro k hkch
          have hki : k ≠ i := by
            intro he
            exact hkch (by rw [he]; exact LList.InChain.here i)
          have hkj : ¬ LList.InChain st j k := by
            intro hc
            exact hkch (LList.InChain.there i j k h2 hc)
          rw [getN_set_ne _ i k _ hki]
          exact hpres' k hkj
        · rw [length_setN]
          exact hlen'
        · intro k hk
          rcases hk with ⟨_⟩ | ⟨_, _, _, hnext, hsub⟩
          · exact LList.InChain.here i
          · rename_i jv
            rw [hgi, higet, h2] at hnext
            injection hnext with he
            rw [← he] at hsub
            have hsub' : LList.InChain
                (LList.resize sizeT sizeNode f st j (n - 1)).2 j k := by
              refine inChain_eq_on _ _ j k hsub ?_
              intro x hx
              exact getN_set_ne _ i x _ (hinotin x hx)
            exact LList.InChain.there i j k h2 (hch' k hsub')

/-- One operation (`append`, `resize` or `clear`) preserves the node
invariant, given the cleanliness condition (no partial `CreateList` failure
inside a growing resize). -/
theorem stepOp_wf (sizeT sizeNode : Nat) (st : LState) (root : Nat)
    (op : LList.LOp) (hwf : LList.WfNode st root)
    (hclean : LList.CleanStep sizeT sizeNode st root op) :
    LList.WfNode (LList.stepOp sizeT sizeNode st root op).2 root := by
  have hrlen : root < st.nodes.length := wfNode_lt st root hwf
  cases op with
  | clear =>
    show LList.WfNode (LList.clear st root) root
    refine LList.WfNode.nil root ?_ ?_ ?_ ?_
    · rw [LList.clear, length_setN]
      exact hrlen
    · rw [LList.clear, getN_set_self st root _ hrlen]
    · rw [LList.clear, getN_set_self st root _ hrlen]
    · rw [LList.clear, getN_set_self st root _ hrlen]
  | append v =>
    cases v with
    | none => exact hwf
    | some tv =>
      have hsep : LList.ContentSep st root ⟨1, some tv, none⟩ :=
        Or.inr ⟨(by show (0 : Nat) < 1; omega), (by simp), Or.inl ⟨rfl, rfl⟩⟩
      have h := append_wf sizeNode ((LList.getN st root).size_ + 2) st root
        ⟨1, some tv, none⟩ hwf hsep (le_refl _)
      show LList.WfNode
        (LList.append sizeNode ((LList.getN st root).size_ + 2) st root
          ⟨1, some tv, none⟩).2 root
      cases hok : (LList.append sizeNode ((LList.getN st root).size_ + 2) st
          root ⟨1, some tv, none⟩).1 with
      | false =>
        rw [h.2 hok]
        exact hwf
      | true => exact (h.1 hok).1
  | resize n =>
    show LList.WfNode
      (LList.resize sizeT sizeNode ((LList.getN st root).size_ + n + 2) st
        root n).2 root
    rcases Nat.lt_trichotomy n (LList.getN st root).size_ with hlt | heq | hgt
    · by_cases hn0 : n = 0
      · subst hn0
        rw [show (LList.getN st root).size_ + 0 + 2 =
          ((LList.getN st root).size_ + 1) + 1 from by omega, resize_succ_eq]
        rw [if_neg (by omega), if_neg (by omega), if_pos rfl]
        refine LList.WfNode.nil root ?_ ?_ ?_ ?_
        · show root < (LList.clear st root).nodes.length
          rw [LList.clear, length_setN]
          exact hrlen
        · show (LList.getN (LList.clear st root) root).size_ = 0
          rw [LList.clear, getN_set_self st root _ hrlen]
        · show (LList.getN (LList.clear st root) root).value = none
          rw [LList.clear, getN_set_self st root _ hrlen]
        · show (LList.getN (LList.clear st root) root).next = none
          rw [LList.clear, getN_set_self st root _ hrlen]
      · exact (resize_shrink_wf sizeT sizeNode
          ((LList.getN st root).size_ + n + 2) n st root hwf (by omega) hlt
          (by omega)).2.1
    · rw [show (LList.getN st root).size_ + n + 2 =
        ((LList.getN st root).size_ + n + 1) + 1 from by omega, resize_succ_eq]
      rw [if_pos heq]
      exact hwf
    · have hcl := hclean hgt
      rw [show (LList.getN st root).size_ + n + 2 =
        ((LList.getN st root).size_ + n + 1) + 1 from by omega, resize_succ_eq]
      rw [if_neg (by omega), if_pos (by omega)]
      obtain ⟨hclen, hcold, hcsz, hcsucc⟩ := createList_spec sizeT sizeNode
        (n - (LList.getN st root).size_) st
      have hwf1 : LList.WfNode
          (LList.createList sizeT sizeNode
            (n - (LList.getN st root).size_) st).2 root := by
        refine wfNode_eq_on st _ root hwf ?_
        intro k hk
        have hklt := wfNode_inChain_lt st root k hwf hk
        exact ⟨hcold k hklt, by omega⟩
      have higet : LList.getN
          (LList.createList sizeT sizeNode
            (n - (LList.getN st root).size_) st).2 root =
          LList.getN st root := hcold root hrlen
      have hsep : LList.ContentSep
          (LList.createList sizeT sizeNode
            (n - (LList.getN st root).size_) st).2 root
          (LList.createList sizeT sizeNode
            (n - (LList.getN st root).size_) st).1 := by
        rcases hcl with hsz | hnil
        · obtain ⟨hval, hdisj⟩ := (hcsucc hsz).2 (by omega)
          rcases hdisj with ⟨hnone, h1⟩ | ⟨j, hj, hjge, hjsz, hjwf, hjch⟩
          · exact Or.inr ⟨by omega, hval, Or.inl ⟨hnone, by omega⟩⟩
          · refine Or.inr ⟨by omega, hval, Or.inr ⟨j, hj, ?_, hjwf, ?_⟩⟩
            · rw [hjsz, hsz]
              omega
            · intro k hk hkch
              have hkge := hjch k hk
              have : LList.InChain st root k := by
                refine inChain_eq_on st _ root k hkch ?_
                intro x hx
                exact hcold x (wfNode_inChain_lt st root x hwf hx)
              have := wfNode_inChain_lt st root k hwf this
              omega
        · rw [hnil]
          exact Or.inl ⟨rfl, rfl, rfl⟩
      have h := append_wf sizeNode ((LList.getN st root).size_ + n + 1 + 1)
        (LList.createList sizeT sizeNode
          (n - (LList.getN st root).size_) st).2 root
        (LList.createList sizeT sizeNode
          (n - (LList.getN st root).size_) st).1 hwf1 hsep
        (by rw [higet]; omega)
      cases hok : (LList.append sizeNode
          ((LList.getN st root).size_ + n + 1 + 1)
          (LList.createList sizeT sizeNode
            (n - (LList.getN st root).size_) st).2 root
          (LList.createList sizeT sizeNode
            (n - (LList.getN st root).size_) st).1).1 with
      | false =>
        rw [h.2 hok]
        exact hwf1
      | true => exact (h.1 hok).1

/-- C4 (amended): after any sequence of `append`, `resize` and `clear`
operations on a list rooted in a block, **provided no growing resize suffers
a partial inner allocation failure** (its `CreateList` either fully succeeds
or returns the all-null descriptor), every node reachable from the root
satisfies the invariant: `size == 0 → value == null ∧ next == null`, and
`size > 0 → value ≠ null ∧ size = 1 + (next ? next.size : 0)` (so the head's
size is the length of the whole chain).  A partial `CreateList` failure can
break it — see the counterexample. -/
theorem list_invariant_preserved (sizeT sizeNode root : Nat)
    (ops : List LList.LOp) (st : LState) (hwf : LList.WfNode st root)
    (hclean : LList.CleanOps sizeT sizeNode root st ops) :
    LList.WfNode (LList.runOps sizeT sizeNode root st ops) root := by
  induction ops generalizing st with
  | nil => exact hwf
  | cons op rest ih =>
    exact ih (LList.stepOp sizeT sizeNode st root op).2
      (stepOp_wf sizeT sizeNode st root op hwf hclean.1) hclean.2

/-- C4 counterexample: an empty list in a block with 4 free bytes
(`sizeof(T) = 4`, `sizeof(List<T>) = 12`); `resize(s, 2)` allocates the `T`
but fails to allocate the second node, so `CreateList` returns the partial
descriptor `(size 0, value ≠ null, next null)`, `append` installs it
wholesale, `resize` reports success — and the root node now violates the
invariant: `size == 0` but `value ≠ null`. -/
theorem list_invariant_counterexample :
    LList.WfNode (⟨4, [⟨0, none, none⟩], 0⟩ : LState) 0 ∧
    (LList.resize 4 12 10 (⟨4, [⟨0, none, none⟩], 0⟩ : LState) 0 2).1 =
      true ∧
    ¬ LList.WfNode
      (LList.resize 4 12 10 (⟨4, [⟨0, none, none⟩], 0⟩ : LState) 0 2).2 0 := by
  refine ⟨LList.WfNode.nil 0 (by decide) rfl rfl rfl, by decide, ?_⟩
  intro h
  have he : (LList.resize 4 12 10 (⟨4, [⟨0, none, none⟩], 0⟩ : LState) 0 2).2 =
      (⟨0, [⟨0, some 0, none⟩], 1⟩ : LState) := by decide
  rw [he] at h
  rcases h with ⟨_, _, _, hval, _⟩ | ⟨_, _, hsz, _, _⟩ |
    ⟨_, _, _, hnext, _, _, _⟩
  · exact absurd hval (by decide)
  · exact absurd hsz (by decide)
  · have hn : (LList.getN
        (⟨0, [⟨0, some 0, none⟩], 1⟩ : LState) 0).next = none := by decide
    rw [hn] at hnext
    cases hnext

/-- Witness for `list_invariant_preserved`: append one element, grow to 3,
shrink to 1 — with ample free space every allocation succeeds and the final
list is well-formed. -/
theorem list_invariant_preserved_witness :
    LList.WfNode
      (LList.runOps 4 12 0 (⟨100, [⟨0, none, none⟩], 0⟩ : LState)
        [LList.LOp.append (some 5), LList.LOp.resize 3, LList.LOp.resize 1])
      0 := by
  apply list_invariant_preserved
  · exact LList.WfNode.nil 0 (by decide) rfl rfl rfl
  · refine ⟨trivial, ?_, ?_, trivial⟩
    · intro _
      exact Or.inl (by decide)
    · intro hlt
      exact absurd hlt (by decide)

/-- C7: `find` is the linear first-match scan — the returned position holds a
pair whose key matches, every earlier position does not match, and the end
sentinel (`size()`) is returned exactly when no pair matches; subscript
raises the out-of-range failure exactly when the key is absent.  When the key
is present subscript returns `*it` — the whole first matching *pair* (which
is the code's bug: returning a `Pair<K,V>` lvalue as `V&` does not compile
when instantiated; the claim's `second` component is the evident intent). -/
theorem map_lookup_spec {K V : Type} (beq : K → K → Bool)
    (pairs : List (K × V)) (key : K) :
    Map.find beq key pairs ≤ pairs.length ∧
    (∀ q : K × V, pairs[Map.find beq key pairs]? = some q →
      beq q.1 key = true) ∧
    (∀ i : Nat, i < Map.find beq key pairs →
      ∀ q : K × V, pairs[i]? = some q → beq q.1 key = false) ∧
    (Map.find beq key pairs = pairs.length ↔
      ∀ q ∈ pairs, beq q.1 key = false) ∧
    (Map.subscript beq pairs key = Except.error () ↔
      Map.find beq key pairs = pairs.length) ∧
    (∀ q : K × V, pairs[Map.find beq key pairs]? = some q →
      Map.subscript beq pairs key = Except.ok q) := by
  refine ⟨map_find_le beq key pairs, map_find_hit beq key pairs,
    map_find_first beq key pairs, map_find_eq_length_iff beq key pairs,
    ?_, ?_⟩
  · constructor
    · intro he
      by_contra hne
      have hlt : Map.find beq key pairs < pairs.length :=
        lt_of_le_of_ne (map_find_le beq key pairs) hne
      have : pairs[Map.find beq key pairs]? =
          some (pairs.get ⟨Map.find beq key pairs, hlt⟩) := by
        rw [List.getElem?_eq_getElem hlt]
        rfl
      unfold Map.subscript at he
      rw [this] at he
      cases he
    · intro hl
      unfold Map.subscript
      rw [List.getElem?_eq_none (by omega)]
  · intro q hq
    unfold Map.subscript
    rw [hq]

/-- Witness for `map_lookup_spec`: looking up an absent key in a two-entry
map raises the out-of-range failure, and looking up key 1 returns the first
matching pair. -/
theorem map_lookup_spec_witness :
    Map.subscript (fun a b : Nat => a == b) [(1, 10), (2, 20)] 5 =
      Except.error () ∧
    Map.subscript (fun a b : Nat => a == b) [(1, 10), (2, 20)] 1 =
      Except.ok (1, 10) := by
  constructor
  · exact (map_lookup_spec (fun a b : Nat => a == b)
      [(1, 10), (2, 20)] 5).2.2.2.2.1.mpr (by decide)
  · exact (map_lookup_spec (fun a b : Nat => a == b)
      [(1, 10), (2, 20)] 1).2.2.2.2.2 (1, 10) (by decide)

end MightyStruct
